import Mathlib

/-!
Verification of `openquake/hazardlib/calc/hazard_curve.py`.

Python floats are modelled as rationals, numpy record arrays of curves as
association lists from IMT names to per-site, per-level value tables, the
caller-owned monitor object as an explicit state value, and exceptions as
`Except` values.  External collaborators (`SiteCollection`, `ContextMaker`,
GSIMs, filters, `raise_`) are modelled from the spec as parameters carrying
their interface functions.
-/

set_option maxHeartbeats 1000000

namespace OQ

/-- Probabilities (Python floats) are modelled as rationals. -/
abbrev Prob := ℚ

/-- A table of probabilities: one row per site, one column per intensity
level (the `poes` and `pno` arrays of the code). -/
abbrev PoeTable := List (List Prob)

/-- One record field of a curves array: per-site, per-level values
(`curves[i][imt]` in the code). -/
abbrev Field := List (List Prob)

/-- A curves record array keyed by IMT name: the numpy structured array
`numpy.zeros/ones(num_sites, imt_dt)` with one field per IMT. -/
abbrev CurveAcc := List (String × Field)

/-- A Python exception value: its type, its message and an opaque traceback
token. -/
structure PyErr where
  etype : String
  msg : String
  tb : ℕ
deriving DecidableEq

/-- Modelled from the spec: a `SiteCollection` (or a subset of one), an
external collaborator.  `total` is the size of the full site collection and
`sids` holds the stable integer ids of the member sites. -/
structure SubSites where
  total : ℕ
  sids : List ℕ
deriving DecidableEq

/-- Modelled from the spec: `SiteCollection.expand(data, fill)` takes
subset-sized data (one row per member site) back to full-collection size,
filling the rows of sites outside the subset with the fill value. -/
def SubSites.expand (s : SubSites) (data : PoeTable) (fill : Prob) : Field :=
  (List.range s.total).map fun j =>
    match (s.sids.zip data).find? (fun p => p.1 == j) with
    | some p => p.2
    | none => List.replicate (data.headD []).length fill

/-- A rupture, an external object: the core only uses its
`get_probability_no_exceedance` method (and iterates ruptures through
`Source.iter_ruptures`). -/
structure Rupture where
  get_probability_no_exceedance : PoeTable → Except PyErr PoeTable

/-- The context triple `(sctx, rctx, dctx)` produced by
`ContextMaker.make_contexts`: opaque to the core except for `sctx.sites`;
the rupture component records what `rctx`/`dctx` were derived from. -/
structure Contexts where
  sites : SubSites
  rup : Rupture

/-- A ground-motion model (GSIM), external: the core calls `get_poes` with
the contexts, an IMT, its levels and the truncation level. -/
structure Gsim where
  name : String
  get_poes : Contexts → String → List Prob → Option Prob → Except PyErr PoeTable

/-- Result of `ContextMaker.make_contexts`: a context triple, the
`FarAwayRupture` signal, or another exception. -/
inductive CtxResult where
  | far : CtxResult
  | err : PyErr → CtxResult
  | ok : Contexts → CtxResult

/-- Modelled from the spec: the external `ContextMaker`; the core only calls
its `make_contexts` method. -/
structure ContextMaker where
  make_contexts : SubSites → Rupture → CtxResult

/-- A seismic source: an integer `id`, a string `source_id`, a tectonic
region type and a lazy stream of ruptures; a stream element `.error e`
models the rupture generator raising `e` at that point of the iteration. -/
structure Source where
  id : ℤ
  source_id : String
  tectonic_region_type : String
  iter_ruptures : List (Except PyErr Rupture)

/-- Modelled from the spec: a source-site filter maps each (source, sites)
pair either to `none` (the pair is dropped) or to the qualifying site
subset; this is the elementwise view of the lazy filtered stream. -/
structure SourceFilter where
  apply : Source → SubSites → Option SubSites

/-- Modelled from the spec: a rupture-site filter, elementwise on the lazy
stream of (rupture, sites) pairs. -/
structure RuptureFilter where
  apply : Rupture → SubSites → Option SubSites

/-- Modelled from the spec: `filters.source_site_noop_filter`. -/
def source_site_noop_filter : SourceFilter := ⟨fun _ s => some s⟩

/-- Modelled from the spec: `filters.rupture_site_noop_filter`. -/
def rupture_site_noop_filter : RuptureFilter := ⟨fun _ s => some s⟩

/-- The two writable monitor fields the core populates.  Wall-clock
durations are not modelled, so every recorded elapsed time is the
placeholder `0`. -/
structure Monitor where
  calc_times : List (ℤ × Prob)
  eff_ruptures : ℕ
deriving DecidableEq

/-- `DummyMonitor()`: a fresh monitor with empty fields. -/
def DummyMonitor : Monitor := ⟨[], 0⟩

/-- Elementwise product of two fields (`curves[i][imt] *= expanded_pno`). -/
def mulField (a b : Field) : Field :=
  List.zipWith (List.zipWith (· * ·)) a b

/-- Elementwise `1 - x` (`curves[i][imt] = 1. - curves[i][imt]`). -/
def invField (a : Field) : Field :=
  a.map (List.map (fun x => 1 - x))

/-- The elementwise `1. - (1. - curves) * (1. - acc)` of `agg_curves`. -/
def aggField (accF curvesF : Field) : Field :=
  List.zipWith (List.zipWith (fun a c => 1 - (1 - c) * (1 - a))) accF curvesF

/-- Read the field of one IMT from a curves record (`curves[imt]`). -/
def lookupField (c : CurveAcc) (imt : String) : Option Field :=
  List.lookup imt c

/-- Write the field of one IMT (`new[imt] = f`). -/
def setField (c : CurveAcc) (imt : String) (f : Field) : CurveAcc :=
  c.map fun p => if p.1 = imt then (p.1, f) else p

/-- `curves[i][imt] *= f` -/
def mulInto (c : CurveAcc) (imt : String) (f : Field) : CurveAcc :=
  c.map fun p => if p.1 = imt then (p.1, mulField p.2 f) else p

/-- `curves[i][imt] = 1. - curves[i][imt]` -/
def invInto (c : CurveAcc) (imt : String) : CurveAcc :=
  c.map fun p => if p.1 = imt then (p.1, invField p.2) else p

/-- The field size `1 if imls is None else len(imls)` of the `zero_curves`
dtype. -/
def levelsSize (o : Option (List Prob)) : ℕ :=
  match o with
  | none => 1
  | some imls => imls.length

/-- `zero_curves(num_sites, imtls)`: a zero record array whose field for
`imt` has `1` level when `imls is None` and `len(imls)` levels otherwise. -/
def zero_curves (num_sites : ℕ) (imtls : List (String × Option (List Prob))) :
    CurveAcc :=
  imtls.map fun p =>
    (p.1, List.replicate num_sites (List.replicate (levelsSize p.2) (0 : Prob)))

/-- `agg_curves(acc, curves)`: copy `acc`, then for every field name of
`curves` set `new[imt] = 1. - (1. - curves[imt]) * (1. - acc[imt])`, reading
both operands from the originals. -/
def agg_curves (acc curves : CurveAcc) : CurveAcc :=
  curves.foldl
    (fun new p =>
      match lookupField acc p.1 with
      | some aF => setField new p.1 (aggField aF p.2)
      | none => new)
    acc

/-- `sorted(imtls)`: the IMT entries in ascending order of their names. -/
def sortImtls (imtls : List (String × List Prob)) : List (String × List Prob) :=
  List.insertionSort (fun p q => p.1 < q.1 ∨ p.1 = q.1) imtls

/-- `numpy.ones(len(sites), imt_dt)` with `imt_dt` built over
`sorted(imtls)`: the initial no-exceedance accumulator of one GSIM. -/
def onesCurves (num_sites : ℕ) (imtls : List (String × List Prob)) : CurveAcc :=
  (sortImtls imtls).map fun p =>
    (p.1, List.replicate num_sites (List.replicate p.2.length 1))

/-- Modelled from the spec: `raise_(etype, msg, tb)` re-raises with the same
exception type and traceback and the message
`'An error occurred with source id=%s. Error: %s' % (source.source_id, err)`. -/
def wrapSourceErr (src : Source) (e : PyErr) : PyErr :=
  ⟨e.etype,
   "An error occurred with source id=" ++ src.source_id ++ ". Error: " ++ e.msg,
   e.tb⟩

/-- The fixed data of one `hazard_curves_per_trt` call. -/
structure TrtEnv where
  cmaker : ContextMaker
  gsims : List Gsim
  imtls : List (String × List Prob)
  truncation_level : Option Prob
  source_site_filter : SourceFilter
  rupture_site_filter : RuptureFilter
  sites : SubSites

/-- The mutable state of the per-TRT loop: the per-GSIM curves and the two
monitor counters. -/
structure PerTrtState where
  curves : List CurveAcc
  eff_ruptures : ℕ
  calc_times : List (ℤ × Prob)

/-- The filtered stream
`rupture_site_filter((rupture, s_sites) for rupture in source.iter_ruptures())`;
an `.error` element models the underlying generator raising at that point. -/
def ruptureStream (f : RuptureFilter) (s_sites : SubSites)
    (rups : List (Except PyErr Rupture)) :
    List (Except PyErr (Rupture × SubSites)) :=
  rups.filterMap fun x =>
    match x with
    | .error e => some (.error e)
    | .ok r =>
      match f.apply r s_sites with
      | none => none
      | some rs => some (.ok (r, rs))

/-- The inner IMT loop for one GSIM and one rupture:
`poes = gsim.get_poes(sctx, rctx, dctx, imt, imts[imt], truncation_level)`,
`pno = rupture.get_probability_no_exceedance(poes)`,
`expanded_pno = sctx.sites.expand(pno, 1.0)`,
`curves[i][str(imt)] *= expanded_pno`, stopping at the first exception. -/
def updateCurveImts (ctx : Contexts) (r : Rupture) (g : Gsim)
    (trunc : Option Prob) :
    List (String × List Prob) → CurveAcc → CurveAcc × Option PyErr
  | [], c => (c, none)
  | (imt, imls) :: rest, c =>
    match g.get_poes ctx imt imls trunc with
    | .error e => (c, some e)
    | .ok poes =>
      match r.get_probability_no_exceedance poes with
      | .error e => (c, some e)
      | .ok pno =>
        updateCurveImts ctx r g trunc rest (mulInto c imt (ctx.sites.expand pno 1))

/-- `for i, gsim in enumerate(gsims): ...` over the aligned curves list. -/
def updateGsimList (ctx : Contexts) (r : Rupture) (trunc : Option Prob)
    (imtls : List (String × List Prob)) :
    List Gsim → List CurveAcc → List CurveAcc × Option PyErr
  | g :: gs, c :: cs =>
    match updateCurveImts ctx r g trunc imtls c with
    | (c1, some e) => (c1 :: cs, some e)
    | (c1, none) =>
      match updateGsimList ctx r trunc imtls gs cs with
      | (cs1, oerr) => (c1 :: cs1, oerr)
  | _, cs => (cs, none)

/-- One rupture of the per-TRT loop: build the contexts (`FarAwayRupture`
means a silent skip), count the rupture as effective and update every GSIM's
curves. -/
def processRupture (env : TrtEnv) (r : Rupture) (r_sites : SubSites)
    (st : PerTrtState) : PerTrtState × Option PyErr :=
  match env.cmaker.make_contexts r_sites r with
  | .far => (st, none)
  | .err e => (st, some e)
  | .ok ctx =>
    match updateGsimList ctx r env.truncation_level env.imtls env.gsims st.curves with
    | (cs, oerr) =>
      (⟨cs, st.eff_ruptures + 1, st.calc_times⟩, oerr)

/-- The rupture loop of one source, stopping at the first raised exception. -/
def processRuptures (env : TrtEnv) :
    List (Except PyErr (Rupture × SubSites)) → PerTrtState →
    PerTrtState × Option PyErr
  | [], st => (st, none)
  | .error e :: _, st => (st, some e)
  | .ok (r, rs) :: rest, st =>
    match processRupture env r rs st with
    | (st1, some e) => (st1, some e)
    | (st1, none) => processRuptures env rest st1

/-- The source loop: filtered-out sources are skipped entirely; a failing
source stops the computation with the augmented error; a completing source
appends one `(source.id, elapsed)` pair to the timing log. -/
def processSources (env : TrtEnv) :
    List Source → PerTrtState → PerTrtState × Option PyErr
  | [], st => (st, none)
  | src :: rest, st =>
    match env.source_site_filter.apply src env.sites with
    | none => processSources env rest st
    | some s_sites =>
      match processRuptures env
          (ruptureStream env.rupture_site_filter s_sites src.iter_ruptures) st with
      | (st1, some e) => (st1, some (wrapSourceErr src e))
      | (st1, none) =>
        processSources env rest
          ⟨st1.curves, st1.eff_ruptures, st1.calc_times ++ [(src.id, 0)]⟩

/-- The final `curves[i][imt] = 1. - curves[i][imt]` loop over the IMTs. -/
def invertCurve (imtls : List (String × List Prob)) (c : CurveAcc) : CurveAcc :=
  imtls.foldl (fun c1 p => invInto c1 p.1) c

/-- The environment `hazard_curves_per_trt` assembles:
`cmaker = ContextMaker(gsims, maximum_distance)` plus the call arguments. -/
def trtEnv (cmakerOf : List Gsim → Option Prob → ContextMaker)
    (sites : SubSites) (imtls : List (String × List Prob)) (gsims : List Gsim)
    (truncation_level : Option Prob) (srcF : SourceFilter) (rupF : RuptureFilter)
    (maximum_distance : Option Prob) : TrtEnv :=
  ⟨cmakerOf gsims maximum_distance, gsims, imtls, truncation_level, srcF, rupF, sites⟩

/-- `hazard_curves_per_trt(sources, sites, imtls, gsims, truncation_level,
source_site_filter, rupture_site_filter, maximum_distance, bbs, monitor)`.
Returns the monitor fields as left by the call together with either the
per-GSIM exceedance curves or the raised exception.  `cmakerOf` stands for
the external `ContextMaker` class applied to `(gsims, maximum_distance)`.
The disaggregation bounding-box side channel (`bbs`, empty by default) is
not modelled: it never touches curves, counters or the timing log. -/
def hazard_curves_per_trt (cmakerOf : List Gsim → Option Prob → ContextMaker)
    (sources : List Source) (sites : SubSites)
    (imtls : List (String × List Prob)) (gsims : List Gsim)
    (truncation_level : Option Prob) (srcF : SourceFilter) (rupF : RuptureFilter)
    (maximum_distance : Option Prob) (_monitor : Monitor) :
    Monitor × Except PyErr (List CurveAcc) :=
  let env := trtEnv cmakerOf sites imtls gsims truncation_level srcF rupF
    maximum_distance
  let init : PerTrtState :=
    ⟨gsims.map (fun _ => onesCurves sites.sids.length imtls), 0, []⟩
  match processSources env sources init with
  | (st, some e) => (⟨st.calc_times, st.eff_ruptures⟩, .error e)
  | (st, none) =>
    (⟨st.calc_times, st.eff_ruptures⟩, .ok (st.curves.map (invertCurve imtls)))

/-- First-occurrence order of the tectonic region types of `sources` (the
iteration order of the `defaultdict` groups built by `calc_hazard_curves`). -/
def trtOrder (sources : List Source) : List String :=
  sources.foldl
    (fun acc s =>
      if s.tectonic_region_type ∈ acc then acc
      else acc ++ [s.tectonic_region_type]) []

/-- The group of one tectonic region type, in source order. -/
def sourcesOfTrt (sources : List Source) (trt : String) : List Source :=
  sources.filter (fun s => s.tectonic_region_type == trt)

/-- The `KeyError` raised by `gsim_by_trt[trt]` for a missing region type. -/
def keyError (trt : String) : PyErr := ⟨"KeyError", trt, 0⟩

/-- The per-region loop of `calc_hazard_curves`:
`curves = agg_curves(curves, hazard_curves_per_trt(sources_by_trt[trt],
sites, imtls, [gsim_by_trt[trt]], truncation_level, source_site_filter,
rupture_site_filter)[0])`; `maximum_distance` is not forwarded, so the
per-TRT call runs with its default `maximum_distance=None` and a fresh
`DummyMonitor()`. -/
def calcGroups (cmakerOf : List Gsim → Option Prob → ContextMaker)
    (sources : List Source) (sites : SubSites)
    (imtls : List (String × List Prob)) (gsim_by_trt : List (String × Gsim))
    (truncation_level : Option Prob) (srcF : SourceFilter)
    (rupF : RuptureFilter) :
    List String → CurveAcc → Except PyErr CurveAcc
  | [], curves => .ok curves
  | trt :: rest, curves =>
    match List.lookup trt gsim_by_trt with
    | none => .error (keyError trt)
    | some gsim =>
      match (hazard_curves_per_trt cmakerOf (sourcesOfTrt sources trt) sites
          imtls [gsim] truncation_level srcF rupF none DummyMonitor).2 with
      | .error e => .error e
      | .ok [] => .error ⟨"IndexError", "list index out of range", 0⟩
      | .ok (c :: _) =>
        calcGroups cmakerOf sources sites imtls gsim_by_trt truncation_level
          srcF rupF rest (agg_curves curves c)

/-- `calc_hazard_curves(sources, sites, imtls, gsim_by_trt, truncation_level,
source_site_filter, rupture_site_filter, maximum_distance)`: group the
sources by tectonic region type, start from `zero_curves` and fold every
group's curve in with `agg_curves`.  The `maximum_distance` argument is
accepted but never used in the body. -/
def calc_hazard_curves (cmakerOf : List Gsim → Option Prob → ContextMaker)
    (sources : List Source) (sites : SubSites)
    (imtls : List (String × List Prob)) (gsim_by_trt : List (String × Gsim))
    (truncation_level : Option Prob) (srcF : SourceFilter)
    (rupF : RuptureFilter) (_maximum_distance : Option Prob) :
    Except PyErr CurveAcc :=
  calcGroups cmakerOf sources sites imtls gsim_by_trt truncation_level srcF rupF
    (trtOrder sources)
    (zero_curves sites.sids.length (imtls.map fun p => (p.1, some p.2)))

/-- From the claim: the expanded no-exceedance factor contributed by each
rupture of a stream that yields a context, for one GSIM and one IMT, in
stream order. -/
def contribsOfStream (env : TrtEnv) (g : Gsim) (imt : String) (imls : List Prob) :
    List (Except PyErr (Rupture × SubSites)) → List Field
  | [] => []
  | .error _ :: _ => []
  | .ok (r, rs) :: rest =>
    match env.cmaker.make_contexts rs r with
    | .far => contribsOfStream env g imt imls rest
    | .err _ => []
    | .ok ctx =>
      match g.get_poes ctx imt imls env.truncation_level with
      | .error _ => []
      | .ok poes =>
        match r.get_probability_no_exceedance poes with
        | .error _ => []
        | .ok pno => ctx.sites.expand pno 1 :: contribsOfStream env g imt imls rest

/-- From the claim: all expanded no-exceedance factors of all surviving
sources, for one GSIM and one IMT, in processing order. -/
def contribsOfSources (env : TrtEnv) (g : Gsim) (imt : String) (imls : List Prob) :
    List Source → List Field
  | [] => []
  | src :: rest =>
    (match env.source_site_filter.apply src env.sites with
     | none => []
     | some s_sites =>
       contribsOfStream env g imt imls
         (ruptureStream env.rupture_site_filter s_sites src.iter_ruptures))
    ++ contribsOfSources env g imt imls rest

/-! ### Concrete scenario objects used by the witnesses -/

/-- A rupture whose probability of no exceedance is the constant `q` at one
site and one level. -/
def constRupture (q : Prob) : Rupture := ⟨fun _ => .ok [[q]]⟩

/-- A stub GSIM returning a constant per-level exceedance probability. -/
def stubGsim : Gsim := ⟨"StubGSIM", fun _ _ _ _ => .ok [[1/10]]⟩

/-- A single-site collection. -/
def oneSite : SubSites := ⟨1, [0]⟩

/-- A context-maker constructor whose contexts always succeed, keeping the
given site subset. -/
def okCmakerOf : List Gsim → Option Prob → ContextMaker :=
  fun _ _ => ⟨fun s r => .ok ⟨s, r⟩⟩

/-- A context-maker constructor that always signals `FarAwayRupture`. -/
def farCmakerOf : List Gsim → Option Prob → ContextMaker :=
  fun _ _ => ⟨fun _ _ => .far⟩

/-- One source with two ruptures of no-exceedance probability 0.9 and 0.8. -/
def srcA : Source :=
  ⟨1, "A", "active", [.ok (constRupture (9/10)), .ok (constRupture (8/10))]⟩


/-- A source whose rupture generator raises `ValueError: boom` after its
first rupture. -/
def badSrc : Source :=
  ⟨3, "BAD", "active", [.ok (constRupture (9/10)), .error ⟨"ValueError", "boom", 7⟩]⟩

/-- A well-behaved source processed before the failing one. -/
def goodSrc : Source := ⟨1, "G", "active", [.ok (constRupture (1/2))]⟩


/-- A field with exactly `N` site rows of exactly `L` levels each. -/
def FieldShape (N L : ℕ) (f : Field) : Prop :=
  f.length = N ∧ ∀ row ∈ f, row.length = L

instance fieldShapeDecidable (N L : ℕ) (f : Field) : Decidable (FieldShape N L f) :=
  inferInstanceAs (Decidable (f.length = N ∧ ∀ row ∈ f, row.length = L))

/-! ### Unit-interval predicates for C3 -/

/-- Every value of a probability table lies in `[0, 1]`. -/
def tableIn01 (f : PoeTable) : Prop :=
  ∀ row ∈ f, ∀ x ∈ row, 0 ≤ x ∧ x ≤ 1

instance tableIn01Decidable (f : PoeTable) : Decidable (tableIn01 f) :=
  inferInstanceAs (Decidable (∀ row ∈ f, ∀ x ∈ row, 0 ≤ x ∧ x ≤ 1))

/-- Every value of a curves record lies in `[0, 1]`. -/
def curveIn01 (c : CurveAcc) : Prop := ∀ p ∈ c, tableIn01 p.2

instance curveIn01Decidable (c : CurveAcc) : Decidable (curveIn01 c) :=
  inferInstanceAs (Decidable (∀ p ∈ c, tableIn01 p.2))

/-- The GSIM's `get_poes` only returns exceedance probabilities in `[0,1]`. -/
def GsimIn01 (g : Gsim) : Prop :=
  ∀ ctx imt imls t poes, g.get_poes ctx imt imls t = .ok poes → tableIn01 poes

/-- The rupture's `get_probability_no_exceedance` only returns values in
`[0,1]`. -/
def RuptureIn01 (r : Rupture) : Prop :=
  ∀ poes pno, r.get_probability_no_exceedance poes = .ok pno → tableIn01 pno

/-- Every rupture the source can yield returns values in `[0,1]`. -/
def SourceIn01 (src : Source) : Prop :=
  ∀ x ∈ src.iter_ruptures, ∀ r, x = .ok r → RuptureIn01 r


/-! ### Association-list lemmas for curve records -/

theorem lookupField_cons_self {p : String × Field} {t : CurveAcc} :
    lookupField (p :: t) p.1 = some p.2 := by
  simp [lookupField, List.lookup]

theorem lookupField_cons_ne {p : String × Field} {t : CurveAcc} {k : String}
    (h : p.1 ≠ k) : lookupField (p :: t) k = lookupField t k := by
  rw [lookupField, List.lookup, lookupField]
  have hb : (k == p.1) = false := by simpa using fun hh => h hh.symm
  rw [hb]

theorem mem_of_lookupField {c : CurveAcc} {k : String} {F : Field}
    (h : lookupField c k = some F) : (k, F) ∈ c := by
  induction c with
  | nil => simp [lookupField, List.lookup] at h
  | cons p t ih =>
    by_cases hk : p.1 = k
    · obtain ⟨pk, pv⟩ := p
      subst hk
      rw [lookupField_cons_self] at h
      obtain rfl : pv = F := by simpa using h
      exact List.mem_cons_self _ _
    · rw [lookupField_cons_ne hk] at h
      exact List.mem_cons_of_mem _ (ih h)

theorem lookupField_isSome_iff {c : CurveAcc} {k : String} :
    (lookupField c k).isSome ↔ k ∈ c.map Prod.fst := by
  induction c with
  | nil => simp [lookupField, List.lookup]
  | cons p t ih =>
    by_cases hk : p.1 = k
    · subst hk
      rw [lookupField_cons_self]
      simp
    · rw [lookupField_cons_ne hk]
      simp only [List.map_cons, List.mem_cons]
      rw [ih]
      constructor
      · exact Or.inr
      · rintro (hh | hh)
        · exact absurd hh.symm hk
        · exact hh

/-- Keys survive `setField`. -/
theorem setField_keys (c : CurveAcc) (w : String) (f : Field) :
    (setField c w f).map Prod.fst = c.map Prod.fst := by
  induction c with
  | nil => rfl
  | cons p t ih =>
    simp only [setField, List.map_cons] at ih ⊢
    by_cases hk : p.1 = w <;> simp [hk, ih]

theorem mulInto_keys (c : CurveAcc) (w : String) (f : Field) :
    (mulInto c w f).map Prod.fst = c.map Prod.fst := by
  induction c with
  | nil => rfl
  | cons p t ih =>
    simp only [mulInto, List.map_cons] at ih ⊢
    by_cases hk : p.1 = w <;> simp [hk, ih]

theorem invInto_keys (c : CurveAcc) (w : String) :
    (invInto c w).map Prod.fst = c.map Prod.fst := by
  induction c with
  | nil => rfl
  | cons p t ih =>
    simp only [invInto, List.map_cons] at ih ⊢
    by_cases hk : p.1 = w <;> simp [hk, ih]

theorem lookupField_setField_self {c : CurveAcc} {w : String} (f : Field)
    (h : w ∈ c.map Prod.fst) : lookupField (setField c w f) w = some f := by
  induction c with
  | nil => simp at h
  | cons p t ih =>
    by_cases hk : p.1 = w
    · have : setField (p :: t) w f = (p.1, f) :: setField t w f := by
        simp [setField, hk]
      rw [this, show (p.1, f) = ((p.1, f) : String × Field) from rfl]
      rw [show w = (p.1, f).1 from hk.symm, lookupField_cons_self]
    · have : setField (p :: t) w f = p :: setField t w f := by
        simp [setField, hk]
      rw [this, lookupField_cons_ne hk]
      refine ih ?_
      simp only [List.map_cons, List.mem_cons] at h
      exact h.resolve_left (fun hh => hk hh.symm)

theorem lookupField_setField_ne {c : CurveAcc} {w q : String} (f : Field)
    (h : w ≠ q) : lookupField (setField c w f) q = lookupField c q := by
  induction c with
  | nil => rfl
  | cons p t ih =>
    by_cases hk : p.1 = w
    · have : setField (p :: t) w f = (p.1, f) :: setField t w f := by
        simp [setField, hk]
      rw [this, lookupField_cons_ne (by simpa [hk] using h),
        lookupField_cons_ne (by simpa [hk] using h)]
      exact ih
    · have : setField (p :: t) w f = p :: setField t w f := by
        simp [setField, hk]
      rw [this]
      by_cases hq : p.1 = q
      · obtain ⟨pk, pv⟩ := p
        subst hq
        rw [lookupField_cons_self, lookupField_cons_self]
      · rw [lookupField_cons_ne hq, lookupField_cons_ne hq]
        exact ih

theorem lookupField_mulInto_self (c : CurveAcc) (w : String) (f : Field) :
    lookupField (mulInto c w f) w = (lookupField c w).map (fun F => mulField F f) := by
  induction c with
  | nil => rfl
  | cons p t ih =>
    by_cases hk : p.1 = w
    · have : mulInto (p :: t) w f = (p.1, mulField p.2 f) :: mulInto t w f := by
        simp [mulInto, hk]
      rw [this]
      rw [show lookupField ((p.1, mulField p.2 f) :: mulInto t w f) w
          = some (mulField p.2 f) from hk ▸ lookupField_cons_self]
      obtain ⟨pk, pv⟩ := p
      subst hk
      rw [lookupField_cons_self]
      rfl
    · have : mulInto (p :: t) w f = p :: mulInto t w f := by
        simp [mulInto, hk]
      rw [this, lookupField_cons_ne hk, lookupField_cons_ne hk]
      exact ih

theorem lookupField_mulInto_ne (c : CurveAcc) {w q : String} (f : Field)
    (h : w ≠ q) : lookupField (mulInto c w f) q = lookupField c q := by
  induction c with
  | nil => rfl
  | cons p t ih =>
    by_cases hk : p.1 = w
    · have : mulInto (p :: t) w f = (p.1, mulField p.2 f) :: mulInto t w f := by
        simp [mulInto, hk]
      rw [this, lookupField_cons_ne (by simpa [hk] using h),
        lookupField_cons_ne (by simpa [hk] using h)]
      exact ih
    · have : mulInto (p :: t) w f = p :: mulInto t w f := by
        simp [mulInto, hk]
      rw [this]
      by_cases hq : p.1 = q
      · obtain ⟨pk, pv⟩ := p
        subst hq
        rw [lookupField_cons_self, lookupField_cons_self]
      · rw [lookupField_cons_ne hq, lookupField_cons_ne hq]
        exact ih

theorem lookupField_invInto_self (c : CurveAcc) (w : String) :
    lookupField (invInto c w) w = (lookupField c w).map invField := by
  induction c with
  | nil => rfl
  | cons p t ih =>
    by_cases hk : p.1 = w
    · have : invInto (p :: t) w = (p.1, invField p.2) :: invInto t w := by
        simp [invInto, hk]
      rw [this]
      rw [show lookupField ((p.1, invField p.2) :: invInto t w) w
          = some (invField p.2) from hk ▸ lookupField_cons_self]
      obtain ⟨pk, pv⟩ := p
      subst hk
      rw [lookupField_cons_self]
      rfl
    · have : invInto (p :: t) w = p :: invInto t w := by
        simp [invInto, hk]
      rw [this, lookupField_cons_ne hk, lookupField_cons_ne hk]
      exact ih

theorem lookupField_invInto_ne (c : CurveAcc) {w q : String}
    (h : w ≠ q) : lookupField (invInto c w) q = lookupField c q := by
  induction c with
  | nil => rfl
  | cons p t ih =>
    by_cases hk : p.1 = w
    · have : invInto (p :: t) w = (p.1, invField p.2) :: invInto t w := by
        simp [invInto, hk]
      rw [this, lookupField_cons_ne (by simpa [hk] using h),
        lookupField_cons_ne (by simpa [hk] using h)]
      exact ih
    · have : invInto (p :: t) w = p :: invInto t w := by
        simp [invInto, hk]
      rw [this]
      by_cases hq : p.1 = q
      · obtain ⟨pk, pv⟩ := p
        subst hq
        rw [lookupField_cons_self, lookupField_cons_self]
      · rw [lookupField_cons_ne hq, lookupField_cons_ne hq]
        exact ih

/-- Two curve records with the same keys (without repetition) and the same
lookups are equal. -/
theorem curveacc_ext {c1 c2 : CurveAcc}
    (hkeys : c1.map Prod.fst = c2.map Prod.fst)
    (hnd : (c1.map Prod.fst).Nodup)
    (h : ∀ k, lookupField c1 k = lookupField c2 k) : c1 = c2 := by
  induction c1 generalizing c2 with
  | nil => cases c2 <;> simp_all
  | cons p t ih =>
    cases c2 with
    | nil => simp at hkeys
    | cons q t2 =>
      simp only [List.map_cons, List.cons.injEq] at hkeys
      obtain ⟨hpq, htkeys⟩ := hkeys
      have hval : p.2 = q.2 := by
        have h1 := h p.1
        rw [lookupField_cons_self] at h1
        rw [show lookupField (q :: t2) p.1 = some q.2 from hpq ▸ lookupField_cons_self] at h1
        simpa using h1
      simp only [List.map_cons, List.nodup_cons] at hnd
      have htl : t = t2 := by
        refine ih htkeys hnd.2 ?_
        intro k
        by_cases hk : p.1 = k
        · subst hk
          have h1 : lookupField t p.1 = none := by
            cases hlt : lookupField t p.1 with
            | none => rfl
            | some F =>
              exact absurd (List.mem_map_of_mem Prod.fst (mem_of_lookupField hlt)) hnd.1
          have h2 : lookupField t2 p.1 = none := by
            cases hlt : lookupField t2 p.1 with
            | none => rfl
            | some F =>
              have hmem2 : (p.1, F) ∈ t2 := mem_of_lookupField hlt
              have : p.1 ∈ t2.map Prod.fst := List.mem_map.2 ⟨(p.1, F), hmem2, rfl⟩
              rw [← htkeys] at this
              exact absurd this hnd.1
          rw [h1, h2]
        · have h1 := h k
          rw [lookupField_cons_ne hk, lookupField_cons_ne (hpq ▸ hk)] at h1
          exact h1
      obtain ⟨pk, pv⟩ := p
      obtain ⟨qk, qv⟩ := q
      simp only at hpq hval
      rw [hpq, hval, htl]

/-- Looking a key up in a transformed association list with distinct keys. -/
theorem lookup_map_val {β γ : Type} (l : List (String × β)) (f : String × β → γ)
    (k : String) (b : β) (hnd : (l.map Prod.fst).Nodup) (hmem : (k, b) ∈ l) :
    List.lookup k (l.map (fun p => (p.1, f p))) = some (f (k, b)) := by
  induction l with
  | nil => simp at hmem
  | cons p t ih =>
    simp only [List.map_cons, List.nodup_cons] at hnd
    rcases List.mem_cons.1 hmem with hh | hh
    · rw [← hh]
      simp [List.lookup]
    · have hk : k ≠ p.1 := by
        intro hcontra
        exact hnd.1 (hcontra ▸ List.mem_map_of_mem Prod.fst hh)
      have hb : (k == p.1) = false := by simpa using hk
      simp only [List.map_cons, List.lookup, hb]
      exact ih hnd.2 hh

theorem lookupField_onesCurves (N : ℕ) (imtls : List (String × List Prob))
    {imt : String} {imls : List Prob}
    (hnd : (imtls.map Prod.fst).Nodup) (hmem : (imt, imls) ∈ imtls) :
    lookupField (onesCurves N imtls) imt
      = some (List.replicate N (List.replicate imls.length 1)) := by
  have hperm : List.Perm (sortImtls imtls) imtls := List.perm_insertionSort _ _
  have hnd2 : ((sortImtls imtls).map Prod.fst).Nodup :=
    ((hperm.map Prod.fst).nodup_iff).2 hnd
  have hmem2 : (imt, imls) ∈ sortImtls imtls := hperm.mem_iff.2 hmem
  have := lookup_map_val (sortImtls imtls)
    (fun p => List.replicate N (List.replicate p.2.length (1 : Prob)))
    imt imls hnd2 hmem2
  simpa [onesCurves, lookupField] using this

theorem lookupField_zero_curves (N : ℕ)
    (imtls : List (String × Option (List Prob))) {imt : String}
    {o : Option (List Prob)}
    (hnd : (imtls.map Prod.fst).Nodup) (hmem : (imt, o) ∈ imtls) :
    lookupField (zero_curves N imtls) imt
      = some (List.replicate N (List.replicate (levelsSize o) (0 : Prob))) := by
  have := lookup_map_val imtls
    (fun p => List.replicate N (List.replicate (levelsSize p.2) (0 : Prob)))
    imt o hnd hmem
  simpa [zero_curves, lookupField] using this

/-! ### The final inversion loop -/

theorem lookupField_invertCurve_notmem (il : List (String × List Prob))
    (c : CurveAcc) {k : String} (h : k ∉ il.map Prod.fst) :
    lookupField (invertCurve il c) k = lookupField c k := by
  induction il generalizing c with
  | nil => rfl
  | cons p t ih =>
    simp only [List.map_cons, List.mem_cons, not_or] at h
    show lookupField (t.foldl (fun c1 q => invInto c1 q.1) (invInto c p.1)) k
      = lookupField c k
    rw [show t.foldl (fun c1 q => invInto c1 q.1) (invInto c p.1)
        = invertCurve t (invInto c p.1) from rfl]
    rw [ih (invInto c p.1) h.2]
    exact lookupField_invInto_ne c (fun hh => h.1 hh.symm)

theorem lookupField_invertCurve_mem (il : List (String × List Prob))
    (c : CurveAcc) {imt : String}
    (hnd : (il.map Prod.fst).Nodup) (hmem : imt ∈ il.map Prod.fst) :
    lookupField (invertCurve il c) imt = (lookupField c imt).map invField := by
  induction il generalizing c with
  | nil => simp at hmem
  | cons p t ih =>
    simp only [List.map_cons, List.nodup_cons] at hnd
    show lookupField (t.foldl (fun c1 q => invInto c1 q.1) (invInto c p.1)) imt
      = (lookupField c imt).map invField
    rw [show t.foldl (fun c1 q => invInto c1 q.1) (invInto c p.1)
        = invertCurve t (invInto c p.1) from rfl]
    by_cases hk : p.1 = imt
    · subst hk
      rw [lookupField_invertCurve_notmem t _ hnd.1]
      exact lookupField_invInto_self c p.1
    · have hmem2 : imt ∈ t.map Prod.fst := by
        rcases List.mem_cons.1 hmem with hh | hh
        · exact absurd hh.symm hk
        · exact hh
      rw [ih (invInto c p.1) hnd.2 hmem2]
      rw [lookupField_invInto_ne c hk]

/-! ### The inner GSIM and IMT loops -/

theorem updateCurveImts_notmem (ctx : Contexts) (r : Rupture) (g : Gsim)
    (trunc : Option Prob) (il : List (String × List Prob)) (c : CurveAcc)
    {imt : String} (h : imt ∉ il.map Prod.fst) :
    lookupField (updateCurveImts ctx r g trunc il c).1 imt = lookupField c imt := by
  induction il generalizing c with
  | nil => rfl
  | cons p t ih =>
    obtain ⟨k, ls⟩ := p
    simp only [List.map_cons, List.mem_cons, not_or] at h
    rw [updateCurveImts]
    cases hp : g.get_poes ctx k ls trunc with
    | error e => simp only [hp]
    | ok poes =>
      simp only [hp]
      cases hpn : r.get_probability_no_exceedance poes with
      | error e => simp only [hpn]
      | ok pno =>
        simp only [hpn]
        rw [ih (mulInto c k (ctx.sites.expand pno 1)) h.2]
        exact lookupField_mulInto_ne c _ (fun hh => h.1 hh.symm)

theorem updateCurveImts_mem_ok (ctx : Contexts) (r : Rupture) (g : Gsim)
    (trunc : Option Prob) {il : List (String × List Prob)} {c c1 : CurveAcc}
    {imt : String} {imls : List Prob}
    (hnd : (il.map Prod.fst).Nodup) (hmem : (imt, imls) ∈ il)
    (h : updateCurveImts ctx r g trunc il c = (c1, none)) :
    ∃ poes pno, g.get_poes ctx imt imls trunc = .ok poes ∧
      r.get_probability_no_exceedance poes = .ok pno ∧
      lookupField c1 imt
        = (lookupField c imt).map (fun F => mulField F (ctx.sites.expand pno 1)) := by
  induction il generalizing c with
  | nil => simp at hmem
  | cons p t ih =>
    obtain ⟨k, ls⟩ := p
    simp only [List.map_cons, List.nodup_cons] at hnd
    rw [updateCurveImts] at h
    cases hp : g.get_poes ctx k ls trunc with
    | error e => simp only [hp] at h; simp [Prod.ext_iff] at h
    | ok poes =>
      simp only [hp] at h
      cases hpn : r.get_probability_no_exceedance poes with
      | error e => simp only [hpn] at h; simp [Prod.ext_iff] at h
      | ok pno =>
        simp only [hpn] at h
        rcases List.mem_cons.1 hmem with hh | hh
        · obtain ⟨rfl, rfl⟩ : imt = k ∧ imls = ls := by simpa [Prod.ext_iff] using hh
          refine ⟨poes, pno, hp, hpn, ?_⟩
          have h2 := updateCurveImts_notmem ctx r g trunc t
            (mulInto c imt (ctx.sites.expand pno 1)) hnd.1
          rw [h] at h2
          simp only at h2
          rw [h2]
          exact lookupField_mulInto_self c imt (ctx.sites.expand pno 1)
        · have hk : k ≠ imt := by
            intro hcontra
            exact hnd.1 (hcontra ▸ List.mem_map.2 ⟨(imt, imls), hh, rfl⟩)
          obtain ⟨poes2, pno2, hp2, hpn2, hl2⟩ := ih hnd.2 hh h
          refine ⟨poes2, pno2, hp2, hpn2, ?_⟩
          rw [hl2, lookupField_mulInto_ne c _ hk]

theorem updateGsimList_ok (ctx : Contexts) (r : Rupture) (trunc : Option Prob)
    (il : List (String × List Prob)) {gs : List Gsim} {cs cs1 : List CurveAcc}
    {i : ℕ} {g : Gsim} {c : CurveAcc}
    (h : updateGsimList ctx r trunc il gs cs = (cs1, none))
    (hg : gs[i]? = some g) (hc : cs[i]? = some c) :
    ∃ c1, cs1[i]? = some c1 ∧ updateCurveImts ctx r g trunc il c = (c1, none) := by
  induction gs generalizing cs cs1 i with
  | nil => simp at hg
  | cons g0 gs ih =>
    cases cs with
    | nil => simp at hc
    | cons c0 cs =>
      rw [updateGsimList] at h
      cases hu : updateCurveImts ctx r g0 trunc il c0 with
      | mk c1h oe =>
        rw [hu] at h
        cases oe with
        | some e => simp at h
        | none =>
          cases hrec : updateGsimList ctx r trunc il gs cs with
          | mk cs1t oe2 =>
            rw [hrec] at h
            obtain ⟨hcs1, hoe2⟩ : c1h :: cs1t = cs1 ∧ oe2 = none := by
              simpa [Prod.ext_iff] using h
            subst hoe2
            cases i with
            | zero =>
              obtain rfl : g0 = g := by simpa using hg
              obtain rfl : c0 = c := by simpa using hc
              exact ⟨c1h, by simp [← hcs1], hu⟩
            | succ n =>
              simp only [List.getElem?_cons_succ] at hg hc
              obtain ⟨c1, hc1, hu1⟩ := ih hrec hg hc
              exact ⟨c1, by simp [← hcs1, hc1], hu1⟩

/-! ### The rupture loop -/

theorem processRupture_far (env : TrtEnv) (r : Rupture) (rs : SubSites)
    (st : PerTrtState) (h : env.cmaker.make_contexts rs r = .far) :
    processRupture env r rs st = (st, none) := by
  rw [processRupture, h]

theorem processRupture_calc_times (env : TrtEnv) (r : Rupture) (rs : SubSites)
    (st : PerTrtState) :
    ((processRupture env r rs st).1).calc_times = st.calc_times := by
  rw [processRupture]
  cases env.cmaker.make_contexts rs r with
  | far => rfl
  | err e => rfl
  | ok ctx =>
    cases updateGsimList ctx r env.truncation_level env.imtls env.gsims st.curves with
    | mk cs oe => rfl

theorem processRuptures_calc_times (env : TrtEnv)
    (elems : List (Except PyErr (Rupture × SubSites))) (st : PerTrtState) :
    ((processRuptures env elems st).1).calc_times = st.calc_times := by
  induction elems generalizing st with
  | nil => rfl
  | cons x rest ih =>
    cases x with
    | error e => rfl
    | ok p =>
      obtain ⟨r, rs⟩ := p
      rw [processRuptures]
      cases hpr : processRupture env r rs st with
      | mk st1 oe =>
        have hct : st1.calc_times = st.calc_times := by
          have := processRupture_calc_times env r rs st
          rw [hpr] at this
          exact this
        cases oe with
        | some e => simpa using hct
        | none => simpa [ih st1] using hct

theorem processRuptures_product (env : TrtEnv) {i : ℕ} {g : Gsim} {imt : String}
    {imls : List Prob}
    (hnd : (env.imtls.map Prod.fst).Nodup) (hmem : (imt, imls) ∈ env.imtls)
    (hg : env.gsims[i]? = some g) :
    ∀ (elems : List (Except PyErr (Rupture × SubSites))) (st st1 : PerTrtState)
      (c : CurveAcc) (F : Field),
      processRuptures env elems st = (st1, none) →
      st.curves[i]? = some c → lookupField c imt = some F →
      ∃ c1, st1.curves[i]? = some c1 ∧
        lookupField c1 imt
          = some (List.foldl mulField F (contribsOfStream env g imt imls elems)) := by
  intro elems
  induction elems with
  | nil =>
    intro st st1 c F h hc hF
    rw [processRuptures] at h
    obtain rfl : st = st1 := by simpa [Prod.ext_iff] using h
    exact ⟨c, hc, by simpa [contribsOfStream] using hF⟩
  | cons x rest ih =>
    intro st st1 c F h hc hF
    cases x with
    | error e =>
      rw [processRuptures] at h
      simp [Prod.ext_iff] at h
    | ok p =>
      obtain ⟨r, rs⟩ := p
      rw [processRuptures] at h
      cases hpr : processRupture env r rs st with
      | mk stm oe =>
        simp only [hpr] at h
        cases oe with
        | some e => simp [Prod.ext_iff] at h
        | none =>
          rw [processRupture] at hpr
          cases hmk : env.cmaker.make_contexts rs r with
          | far =>
            simp only [hmk] at hpr
            obtain rfl : st = stm := by simpa [Prod.ext_iff] using hpr
            rw [contribsOfStream]
            simp only [hmk]
            exact ih st st1 c F h hc hF
          | err e =>
            simp only [hmk] at hpr
            simp [Prod.ext_iff] at hpr
          | ok ctx =>
            simp only [hmk] at hpr
            cases hgl : updateGsimList ctx r env.truncation_level env.imtls
                env.gsims st.curves with
            | mk cs oe2 =>
              simp only [hgl] at hpr
              obtain ⟨hstm, hoe2⟩ : (⟨cs, st.eff_ruptures + 1, st.calc_times⟩
                  : PerTrtState) = stm ∧ oe2 = none := by
                simpa [Prod.ext_iff] using hpr
              subst hoe2
              obtain ⟨c1, hc1, hu⟩ := updateGsimList_ok ctx r env.truncation_level
                env.imtls hgl hg hc
              obtain ⟨poes, pno, hp, hpn, hl⟩ := updateCurveImts_mem_ok ctx r g
                env.truncation_level hnd hmem hu
              have hcm : stm.curves[i]? = some c1 := by
                rw [← hstm]
                exact hc1
              have hlc1 : lookupField c1 imt
                  = some (mulField F (ctx.sites.expand pno 1)) := by
                rw [hl, hF]
                rfl
              obtain ⟨c2, hc2, hl2⟩ := ih stm st1 c1
                (mulField F (ctx.sites.expand pno 1)) h hcm hlc1
              refine ⟨c2, hc2, ?_⟩
              rw [hl2, contribsOfStream]
              simp only [hmk, hp, hpn, List.foldl_cons]

/-! ### The source loop -/

theorem contribsOfSources_append (env : TrtEnv) (g : Gsim) (imt : String)
    (imls : List Prob) (s1 s2 : List Source) :
    contribsOfSources env g imt imls (s1 ++ s2)
      = contribsOfSources env g imt imls s1 ++ contribsOfSources env g imt imls s2 := by
  induction s1 with
  | nil => simp [contribsOfSources]
  | cons s t ih =>
    rw [List.cons_append, contribsOfSources, contribsOfSources, ih,
      List.append_assoc]

theorem processSources_product (env : TrtEnv) {i : ℕ} {g : Gsim} {imt : String}
    {imls : List Prob}
    (hnd : (env.imtls.map Prod.fst).Nodup) (hmem : (imt, imls) ∈ env.imtls)
    (hg : env.gsims[i]? = some g) :
    ∀ (srcs : List Source) (st st1 : PerTrtState) (c : CurveAcc) (F : Field),
      processSources env srcs st = (st1, none) →
      st.curves[i]? = some c → lookupField c imt = some F →
      ∃ c1, st1.curves[i]? = some c1 ∧
        lookupField c1 imt
          = some (List.foldl mulField F (contribsOfSources env g imt imls srcs)) := by
  intro srcs
  induction srcs with
  | nil =>
    intro st st1 c F h hc hF
    rw [processSources] at h
    obtain rfl : st = st1 := by simpa [Prod.ext_iff] using h
    exact ⟨c, hc, by simpa [contribsOfSources] using hF⟩
  | cons src rest ih =>
    intro st st1 c F h hc hF
    rw [processSources] at h
    cases hsf : env.source_site_filter.apply src env.sites with
    | none =>
      simp only [hsf] at h
      rw [contribsOfSources]
      simp only [hsf, List.nil_append]
      exact ih st st1 c F h hc hF
    | some s_sites =>
      simp only [hsf] at h
      cases hpr : processRuptures env
          (ruptureStream env.rupture_site_filter s_sites src.iter_ruptures) st with
      | mk stm oe =>
        simp only [hpr] at h
        cases oe with
        | some e => simp [Prod.ext_iff] at h
        | none =>
          obtain ⟨c1, hc1, hl1⟩ := processRuptures_product env hnd hmem hg _
            st stm c F hpr hc hF
          obtain ⟨c2, hc2, hl2⟩ := ih
            ⟨stm.curves, stm.eff_ruptures, stm.calc_times ++ [(src.id, 0)]⟩
            st1 c1 _ h hc1 hl1
          refine ⟨c2, hc2, ?_⟩
          rw [hl2, contribsOfSources]
          simp only [hsf]
          rw [List.foldl_append]

/-! ### C1 -/

/-- Shared characterization: a returned per-TRT curve is the inversion of
the running product of the expanded no-exceedance contributions. -/
theorem perTrt_ok_product
    (cmakerOf : List Gsim → Option Prob → ContextMaker) (sources : List Source)
    (sites : SubSites) (imtls : List (String × List Prob)) (gsims : List Gsim)
    (truncation_level : Option Prob) (srcF : SourceFilter) (rupF : RuptureFilter)
    (maximum_distance : Option Prob) (monitor : Monitor)
    {cs : List CurveAcc} {i : ℕ} {g : Gsim} {imt : String} {imls : List Prob}
    (hnd : (imtls.map Prod.fst).Nodup) (hmem : (imt, imls) ∈ imtls)
    (hg : gsims[i]? = some g)
    (hok : (hazard_curves_per_trt cmakerOf sources sites imtls gsims
      truncation_level srcF rupF maximum_distance monitor).2 = .ok cs) :
    ∃ c, cs[i]? = some c ∧
      lookupField c imt = some (invField (List.foldl mulField
        (List.replicate sites.sids.length (List.replicate imls.length 1))
        (contribsOfSources (trtEnv cmakerOf sites imtls gsims truncation_level
          srcF rupF maximum_distance) g imt imls sources))) := by
  rw [hazard_curves_per_trt] at hok
  cases hps : processSources
      (trtEnv cmakerOf sites imtls gsims truncation_level srcF rupF maximum_distance)
      sources
      ⟨gsims.map (fun _ => onesCurves sites.sids.length imtls), 0, []⟩ with
  | mk st oe =>
    rw [hps] at hok
    cases oe with
    | some e => simp at hok
    | none =>
      obtain rfl : st.curves.map (invertCurve imtls) = cs := by simpa using hok
      have hinit : ((⟨gsims.map (fun _ => onesCurves sites.sids.length imtls),
          0, []⟩ : PerTrtState).curves)[i]? = some (onesCurves sites.sids.length imtls) := by
        simp only []
        rw [List.getElem?_map, hg]
        rfl
      have hF : lookupField (onesCurves sites.sids.length imtls) imt
          = some (List.replicate sites.sids.length (List.replicate imls.length 1)) :=
        lookupField_onesCurves _ _ hnd hmem
      obtain ⟨c1, hc1, hl1⟩ := processSources_product
        (trtEnv cmakerOf sites imtls gsims truncation_level srcF rupF maximum_distance)
        hnd hmem hg sources _ st _ _ hps hinit hF
      refine ⟨invertCurve imtls c1, ?_, ?_⟩
      · rw [List.getElem?_map, hc1]
        rfl
      · rw [lookupField_invertCurve_mem imtls c1 hnd
          (List.mem_map.2 ⟨(imt, imls), hmem, rfl⟩), hl1]
        rfl

/-- **C1**: for every call of `hazard_curves_per_trt` that returns curves,
each ground-motion model's returned curve for an IMT equals 1 minus the
product, over every rupture that yields a context, of that rupture's
no-exceedance probability expanded to full site-collection size with fill
value 1.0, the accumulator starting at 1.0 everywhere. -/
theorem hazard_curves_per_trt_product
    (cmakerOf : List Gsim → Option Prob → ContextMaker) (sources : List Source)
    (sites : SubSites) (imtls : List (String × List Prob)) (gsims : List Gsim)
    (truncation_level : Option Prob) (srcF : SourceFilter) (rupF : RuptureFilter)
    (maximum_distance : Option Prob) (monitor : Monitor)
    {cs : List CurveAcc} {i : ℕ} {g : Gsim} {imt : String} {imls : List Prob}
    (hnd : (imtls.map Prod.fst).Nodup) (hmem : (imt, imls) ∈ imtls)
    (hg : gsims[i]? = some g)
    (hok : (hazard_curves_per_trt cmakerOf sources sites imtls gsims
      truncation_level srcF rupF maximum_distance monitor).2 = .ok cs) :
    ∃ c, cs[i]? = some c ∧
      lookupField c imt = some (invField (List.foldl mulField
        (List.replicate sites.sids.length (List.replicate imls.length 1))
        (contribsOfSources (trtEnv cmakerOf sites imtls gsims truncation_level
          srcF rupF maximum_distance) g imt imls sources))) :=
  perTrt_ok_product cmakerOf sources sites imtls gsims truncation_level srcF
    rupF maximum_distance monitor hnd hmem hg hok

/-- **C1**, witness: one source with two ruptures whose no-exceedance
probabilities at a single site/IMT/level are 0.9 and 0.8; the no-exceedance
accumulator reaches 0.9 × 0.8 = 0.72 and the returned exceedance curve is
1 − 0.72 = 0.28. -/
theorem hazard_curves_per_trt_product_witness :
    (∃ c, ([[("PGA", [[(7 : Prob)/25]])]] : List CurveAcc)[0]? = some c ∧
      lookupField c "PGA" = some (invField (List.foldl mulField
        (List.replicate oneSite.sids.length (List.replicate [(1 : Prob)/2].length 1))
        (contribsOfSources (trtEnv okCmakerOf oneSite [("PGA", [1/2])] [stubGsim]
          none source_site_noop_filter rupture_site_noop_filter none)
          stubGsim "PGA" [1/2] [srcA])))) ∧
    List.foldl mulField
        (List.replicate oneSite.sids.length (List.replicate [(1 : Prob)/2].length 1))
        (contribsOfSources (trtEnv okCmakerOf oneSite [("PGA", [1/2])] [stubGsim]
          none source_site_noop_filter rupture_site_noop_filter none)
          stubGsim "PGA" [1/2] [srcA]) = [[(18 : Prob)/25]] ∧
    invField [[(18 : Prob)/25]] = [[(7 : Prob)/25]] := by
  refine ⟨?_, by with_unfolding_all rfl, by with_unfolding_all rfl⟩
  exact hazard_curves_per_trt_product okCmakerOf [srcA] oneSite [("PGA", [1/2])]
    [stubGsim] none source_site_noop_filter rupture_site_noop_filter none
    DummyMonitor (by simp) (by simp) rfl (by with_unfolding_all rfl)

/-! ### C10 -/

/-- **C10**: `calc_hazard_curves` does not depend on its `maximum_distance`
argument: two calls differing only in that argument return the same result,
because the argument is accepted but never forwarded to the per-region
computation. -/
theorem calc_hazard_curves_ignores_maximum_distance
    (cmakerOf : List Gsim → Option Prob → ContextMaker) (sources : List Source)
    (sites : SubSites) (imtls : List (String × List Prob))
    (gsim_by_trt : List (String × Gsim)) (truncation_level : Option Prob)
    (srcF : SourceFilter) (rupF : RuptureFilter) (md1 md2 : Option Prob) :
    calc_hazard_curves cmakerOf sources sites imtls gsim_by_trt
      truncation_level srcF rupF md1
      = calc_hazard_curves cmakerOf sources sites imtls gsim_by_trt
        truncation_level srcF rupF md2 := rfl

/-! ### C9 -/

/-- **C9**, counterexample: for the IMT `PGA` bound to an *empty* sequence
of levels, `zero_curves` and the per-TRT initial curves both build a field
of size 0, not a single scalar level of size 1. -/
theorem empty_levels_size_counterexample :
    lookupField (zero_curves 1 [("PGA", some [])]) "PGA" = some [[]] ∧
    lookupField (onesCurves 1 [("PGA", [])]) "PGA" = some [[]] ∧
    ¬ (∀ row ∈ [([] : List Prob)], row.length = 1) := by
  refine ⟨by with_unfolding_all rfl, by with_unfolding_all rfl, by decide⟩

/-- **C9** (amended): in `zero_curves` an IMT entry of `None` yields a
single scalar level (field size 1) while an explicit sequence yields exactly
`len(levels)` values, and the per-TRT curve fields also have exactly
`len(levels)` values; an empty sequence therefore yields size 0 in both,
not 1. -/
theorem levels_field_sizes
    (N : ℕ) (imtls0 : List (String × Option (List Prob)))
    (imtls : List (String × List Prob)) {imt : String} {o : Option (List Prob)}
    {imls : List Prob}
    (hnd0 : (imtls0.map Prod.fst).Nodup) (hmem0 : (imt, o) ∈ imtls0)
    (hnd : (imtls.map Prod.fst).Nodup) (hmem : (imt, imls) ∈ imtls) :
    (∃ rows, lookupField (zero_curves N imtls0) imt = some rows ∧
      ∀ row ∈ rows, row.length = levelsSize o) ∧
    (∃ rows, lookupField (onesCurves N imtls) imt = some rows ∧
      ∀ row ∈ rows, row.length = imls.length) ∧
    levelsSize none = 1 ∧ levelsSize (some []) = 0 := by
  refine ⟨⟨_, lookupField_zero_curves N imtls0 hnd0 hmem0, ?_⟩,
    ⟨_, lookupField_onesCurves N imtls hnd hmem, ?_⟩, rfl, rfl⟩
  · intro row hrow
    rw [List.eq_of_mem_replicate hrow]
    simp
  · intro row hrow
    rw [List.eq_of_mem_replicate hrow]
    simp

/-- **C9** (amended), witness at a concrete input: `None` gives one scalar
level, an empty sequence gives zero levels in both constructions. -/
theorem levels_field_sizes_witness :
    (∃ rows, lookupField (zero_curves 2 [("PGA", some []), ("SA", none)]) "SA"
      = some rows ∧ ∀ row ∈ rows, row.length = levelsSize none) ∧
    (∃ rows, lookupField (onesCurves 2 [("SA", [])]) "SA"
      = some rows ∧ ∀ row ∈ rows, row.length = ([] : List Prob).length) ∧
    levelsSize none = 1 ∧ levelsSize (some []) = 0 := by
  exact levels_field_sizes 2 [("PGA", some []), ("SA", none)] [("SA", [])]
    (by decide)
    (show ("SA", (none : Option (List Prob))) ∈ [("PGA", some []), ("SA", none)]
      by decide)
    (by decide)
    (show ("SA", ([] : List Prob)) ∈ [("SA", [])] by decide)

/-! ### C8 -/

theorem processSources_calc_times (env : TrtEnv) :
    ∀ (srcs : List Source) (st st1 : PerTrtState),
      processSources env srcs st = (st1, none) →
      st1.calc_times = st.calc_times ++
        (srcs.filter
          (fun s => (env.source_site_filter.apply s env.sites).isSome)).map
          (fun s => (s.id, (0 : Prob))) := by
  intro srcs
  induction srcs with
  | nil =>
    intro st st1 h
    obtain rfl : st = st1 := by
      rw [processSources] at h
      simpa [Prod.ext_iff] using h
    simp
  | cons src rest ih =>
    intro st st1 h
    rw [processSources] at h
    cases hsf : env.source_site_filter.apply src env.sites with
    | none =>
      simp only [hsf] at h
      rw [List.filter_cons]
      simp only [hsf, Option.isSome_none, if_neg Bool.false_ne_true]
      exact ih st st1 h
    | some s_sites =>
      simp only [hsf] at h
      cases hpr : processRuptures env
          (ruptureStream env.rupture_site_filter s_sites src.iter_ruptures) st with
      | mk stm oe =>
        simp only [hpr] at h
        cases oe with
        | some e => simp [Prod.ext_iff] at h
        | none =>
          have hct : stm.calc_times = st.calc_times := by
            have := processRuptures_calc_times env
              (ruptureStream env.rupture_site_filter s_sites src.iter_ruptures) st
            rw [hpr] at this
            exact this
          have := ih _ st1 h
          rw [this]
          simp only [hct]
          rw [List.filter_cons]
          simp only [hsf, Option.isSome_some, if_pos rfl]
          simp [List.append_assoc]

/-- **C8**, counterexample: `hazard_curves_per_trt` resets the monitor's
timing log and effective-rupture counter at the start of the call: an entry
held by the monitor before the call is gone afterwards, so the core does
overwrite pre-existing instrumentation state. -/
theorem monitor_reset_counterexample :
    ((5 : ℤ), (3 : Prob)) ∈ (⟨[((5 : ℤ), (3 : Prob))], 7⟩ : Monitor).calc_times ∧
    (hazard_curves_per_trt okCmakerOf [] oneSite [("PGA", [1/2])] [stubGsim]
      none source_site_noop_filter rupture_site_noop_filter none
      ⟨[((5 : ℤ), (3 : Prob))], 7⟩).1 = ⟨[], 0⟩ := by
  exact ⟨by decide, by with_unfolding_all rfl⟩

/-- **C8** (amended): after resetting both monitor fields at the start of
the call, the core appends exactly one `(source.id, elapsed)` pair per
source that passes the source filter (on a call that completes without
error), and the fields returned do not depend on the monitor state passed
in. -/
theorem monitor_calc_times_per_source
    (cmakerOf : List Gsim → Option Prob → ContextMaker) (sources : List Source)
    (sites : SubSites) (imtls : List (String × List Prob)) (gsims : List Gsim)
    (truncation_level : Option Prob) (srcF : SourceFilter) (rupF : RuptureFilter)
    (maximum_distance : Option Prob) (monitor m2 : Monitor)
    {m : Monitor} {cs : List CurveAcc}
    (h : hazard_curves_per_trt cmakerOf sources sites imtls gsims
      truncation_level srcF rupF maximum_distance monitor = (m, .ok cs)) :
    m.calc_times = (sources.filter
        (fun s => (srcF.apply s sites).isSome)).map (fun s => (s.id, (0 : Prob))) ∧
    hazard_curves_per_trt cmakerOf sources sites imtls gsims
        truncation_level srcF rupF maximum_distance monitor
      = hazard_curves_per_trt cmakerOf sources sites imtls gsims
        truncation_level srcF rupF maximum_distance m2 := by
  constructor
  · rw [hazard_curves_per_trt] at h
    cases hps : processSources
        (trtEnv cmakerOf sites imtls gsims truncation_level srcF rupF maximum_distance)
        sources
        ⟨gsims.map (fun _ => onesCurves sites.sids.length imtls), 0, []⟩ with
    | mk st oe =>
      rw [hps] at h
      cases oe with
      | some e => simp [Prod.ext_iff] at h
      | none =>
        obtain ⟨hm, _⟩ : (⟨st.calc_times, st.eff_ruptures⟩ : Monitor) = m ∧ _ := by
          simpa [Prod.ext_iff] using h
        have := processSources_calc_times
          (trtEnv cmakerOf sites imtls gsims truncation_level srcF rupF maximum_distance)
          sources _ st hps
        rw [← hm]
        simpa using this
  · rfl

/-- **C8** (amended), witness: one filtered source completing without error
leaves exactly its `(id, elapsed)` pair in the log. -/
theorem monitor_calc_times_per_source_witness :
    (hazard_curves_per_trt okCmakerOf [srcA] oneSite [("PGA", [1/2])] [stubGsim]
      none source_site_noop_filter rupture_site_noop_filter none
      DummyMonitor).1.calc_times
      = ([srcA].filter
          (fun s => (source_site_noop_filter.apply s oneSite).isSome)).map
          (fun s => (s.id, (0 : Prob))) := by
  exact (monitor_calc_times_per_source okCmakerOf [srcA] oneSite [("PGA", [1/2])]
    [stubGsim] none source_site_noop_filter rupture_site_noop_filter none
    DummyMonitor DummyMonitor (by with_unfolding_all rfl)).1

/-! ### C7 -/

theorem mem_trtOrder {sources : List Source} {src : Source} (h : src ∈ sources) :
    src.tectonic_region_type ∈ trtOrder sources := by
  have aux : ∀ (srcs : List Source) (acc : List String) (t : String),
      (t ∈ acc ∨ ∃ s ∈ srcs, s.tectonic_region_type = t) →
      t ∈ srcs.foldl
        (fun acc s =>
          if s.tectonic_region_type ∈ acc then acc
          else acc ++ [s.tectonic_region_type]) acc := by
    intro srcs
    induction srcs with
    | nil =>
      intro acc t ht
      rcases ht with ht | ⟨s, hs, _⟩
      · exact ht
      · simp at hs
    | cons s rest ih =>
      intro acc t ht
      rw [List.foldl_cons]
      apply ih
      rcases ht with ht | ⟨s1, hs1, hteq⟩
      · left
        by_cases hmem : s.tectonic_region_type ∈ acc
        · simpa [hmem] using ht
        · simp only [hmem, if_neg, ite_false]
          exact List.mem_append_left _ ht
      · rcases List.mem_cons.1 hs1 with rfl | hs1
        · left
          by_cases hmem : s1.tectonic_region_type ∈ acc
          · rw [if_pos hmem]
            exact hteq ▸ hmem
          · rw [if_neg hmem]
            apply List.mem_append_right
            simp [hteq]
        · exact Or.inr ⟨s1, hs1, hteq⟩
  exact aux sources [] src.tectonic_region_type (Or.inr ⟨src, h, rfl⟩)

theorem calcGroups_error_of_missing
    (cmakerOf : List Gsim → Option Prob → ContextMaker) (sources : List Source)
    (sites : SubSites) (imtls : List (String × List Prob))
    (gsim_by_trt : List (String × Gsim)) (truncation_level : Option Prob)
    (srcF : SourceFilter) (rupF : RuptureFilter) {trt : String}
    (hmiss : List.lookup trt gsim_by_trt = none) :
    ∀ (trts : List String) (curves : CurveAcc), trt ∈ trts →
      ∃ e, calcGroups cmakerOf sources sites imtls gsim_by_trt truncation_level
        srcF rupF trts curves = .error e := by
  intro trts
  induction trts with
  | nil => intro curves h; simp at h
  | cons t rest ih =>
    intro curves hmem
    cases hl : List.lookup t gsim_by_trt with
    | none => exact ⟨keyError t, by simp only [calcGroups, hl]⟩
    | some gsim =>
      have htrest : trt ∈ rest := by
        rcases List.mem_cons.1 hmem with rfl | hh
        · rw [hmiss] at hl
          cases hl
        · exact hh
      cases hper : (hazard_curves_per_trt cmakerOf (sourcesOfTrt sources t) sites
          imtls [gsim] truncation_level srcF rupF none DummyMonitor).2 with
      | error e => exact ⟨e, by simp only [calcGroups, hl, hper]⟩
      | ok cs =>
        cases cs with
        | nil =>
          exact ⟨⟨"IndexError", "list index out of range", 0⟩,
            by simp only [calcGroups, hl, hper]⟩
        | cons c rest2 =>
          obtain ⟨e, he⟩ := ih (agg_curves curves c) htrest
          exact ⟨e, by simp only [calcGroups, hl, hper]; exact he⟩

/-- **C7**: if some source's tectonic region type is not a key of the GSIM
mapping, `calc_hazard_curves` fails with a lookup error and returns no
curves; when that region's group is the first one processed, the error is
precisely the `KeyError` carrying that region type. -/
theorem missing_trt_is_fatal
    (cmakerOf : List Gsim → Option Prob → ContextMaker) (sources : List Source)
    (sites : SubSites) (imtls : List (String × List Prob))
    (gsim_by_trt : List (String × Gsim)) (truncation_level : Option Prob)
    (srcF : SourceFilter) (rupF : RuptureFilter) (md : Option Prob)
    {src : Source} (hsrc : src ∈ sources)
    (hmiss : List.lookup src.tectonic_region_type gsim_by_trt = none) :
    (∃ e, calc_hazard_curves cmakerOf sources sites imtls gsim_by_trt
      truncation_level srcF rupF md = .error e) ∧
    (∀ rest, trtOrder sources = src.tectonic_region_type :: rest →
      calc_hazard_curves cmakerOf sources sites imtls gsim_by_trt
        truncation_level srcF rupF md
        = .error (keyError src.tectonic_region_type)) := by
  constructor
  · rw [calc_hazard_curves]
    exact calcGroups_error_of_missing cmakerOf sources sites imtls gsim_by_trt
      truncation_level srcF rupF hmiss (trtOrder sources) _ (mem_trtOrder hsrc)
  · intro rest hord
    rw [calc_hazard_curves, hord, calcGroups, hmiss]

/-- **C7**, witness: the single source has region type `"active"`, the GSIM
mapping is empty, and the call fails with the `KeyError` for `"active"`. -/
theorem missing_trt_is_fatal_witness :
    (∃ e, calc_hazard_curves okCmakerOf [srcA] oneSite [("PGA", [1/2])] []
      none source_site_noop_filter rupture_site_noop_filter none = .error e) ∧
    (∀ rest, trtOrder [srcA] = srcA.tectonic_region_type :: rest →
      calc_hazard_curves okCmakerOf [srcA] oneSite [("PGA", [1/2])] []
        none source_site_noop_filter rupture_site_noop_filter none
        = .error (keyError srcA.tectonic_region_type)) := by
  exact missing_trt_is_fatal okCmakerOf [srcA] oneSite [("PGA", [1/2])] []
    none source_site_noop_filter rupture_site_noop_filter none
    (List.mem_singleton.2 rfl) rfl

/-! ### C5 -/

theorem processRuptures_far (env : TrtEnv)
    (elems : List (Except PyErr (Rupture × SubSites)))
    (hfar : ∀ x ∈ elems, ∃ r rs, x = .ok (r, rs) ∧
      env.cmaker.make_contexts rs r = .far) :
    ∀ st, processRuptures env elems st = (st, none) := by
  induction elems with
  | nil => intro st; rfl
  | cons x rest ih =>
    intro st
    obtain ⟨r, rs, rfl, hx⟩ := hfar x (List.mem_cons_self _ _)
    rw [processRuptures, processRupture_far env r rs st hx]
    exact ih (fun y hy => hfar y (List.mem_cons_of_mem _ hy)) st

theorem processSources_far (env : TrtEnv) (srcs : List Source)
    (hfar : ∀ src ∈ srcs, ∀ s_sites,
      env.source_site_filter.apply src env.sites = some s_sites →
      ∀ x ∈ ruptureStream env.rupture_site_filter s_sites src.iter_ruptures,
      ∃ r rs, x = .ok (r, rs) ∧ env.cmaker.make_contexts rs r = .far) :
    ∀ st, ∃ st1, processSources env srcs st = (st1, none) ∧
      st1.curves = st.curves ∧ st1.eff_ruptures = st.eff_ruptures := by
  induction srcs with
  | nil => intro st; exact ⟨st, rfl, rfl, rfl⟩
  | cons src rest ih =>
    intro st
    cases hsf : env.source_site_filter.apply src env.sites with
    | none =>
      obtain ⟨st1, h1, h2, h3⟩ := ih (fun s hs => hfar s (List.mem_cons_of_mem _ hs)) st
      exact ⟨st1, by simp only [processSources, hsf]; exact h1, h2, h3⟩
    | some s_sites =>
      have hstream := processRuptures_far env _
        (hfar src (List.mem_cons_self _ _) s_sites hsf) st
      obtain ⟨st1, h1, h2, h3⟩ := ih (fun s hs => hfar s (List.mem_cons_of_mem _ hs))
        ⟨st.curves, st.eff_ruptures, st.calc_times ++ [(src.id, 0)]⟩
      refine ⟨st1, ?_, h2, h3⟩
      simp only [processSources, hsf, hstream]
      exact h1

theorem onesCurves_entries (N : ℕ) (imtls : List (String × List Prob)) :
    ∀ p ∈ onesCurves N imtls, p.1 ∈ imtls.map Prod.fst ∧
      ∀ row ∈ p.2, ∀ x ∈ row, x = (1 : Prob) := by
  intro p hp
  obtain ⟨q, hq, rfl⟩ := List.mem_map.1 hp
  refine ⟨?_, ?_⟩
  · have hq2 : q ∈ imtls := (List.perm_insertionSort _ _).mem_iff.1 hq
    exact List.mem_map.2 ⟨q, hq2, rfl⟩
  · intro row hrow x hx
    rw [List.eq_of_mem_replicate hrow] at hx
    exact List.eq_of_mem_replicate hx

theorem invertCurve_values (il : List (String × List Prob)) :
    ∀ (c : CurveAcc), (il.map Prod.fst).Nodup →
      (∀ p ∈ c, (p.1 ∈ il.map Prod.fst ∧ ∀ row ∈ p.2, ∀ x ∈ row, x = (1 : Prob))
        ∨ (p.1 ∉ il.map Prod.fst ∧ ∀ row ∈ p.2, ∀ x ∈ row, x = (0 : Prob))) →
      ∀ p ∈ invertCurve il c, ∀ row ∈ p.2, ∀ x ∈ row, x = 0 := by
  induction il with
  | nil =>
    intro c _ hc p hp row hrow x hx
    rcases hc p hp with ⟨hk, _⟩ | ⟨_, h0⟩
    · simp at hk
    · exact h0 row hrow x hx
  | cons q t ih =>
    intro c hnd hc
    simp only [List.map_cons, List.nodup_cons] at hnd
    show ∀ p ∈ invertCurve t (invInto c q.1), ∀ row ∈ p.2, ∀ x ∈ row, x = 0
    refine ih (invInto c q.1) hnd.2 ?_
    intro p hp
    obtain ⟨p0, hp0, hptransform⟩ := List.mem_map.1 hp
    rcases hc p0 hp0 with ⟨hk, h1⟩ | ⟨hk, h0⟩
    · by_cases hq : p0.1 = q.1
      · right
        rw [← hptransform]
        simp only [hq, if_pos rfl]
        constructor
        · simpa [hq] using hnd.1
        · intro row hrow x hx
          obtain ⟨row0, hrow0, rfl⟩ := List.mem_map.1 hrow
          obtain ⟨y, hy, rfl⟩ := List.mem_map.1 hx
          rw [h1 row0 hrow0 y hy]
          norm_num
      · left
        rw [← hptransform]
        simp only [if_neg hq]
        constructor
        · rcases List.mem_cons.1 hk with hh | hh
          · exact absurd hh hq
          · exact hh
        · exact h1
    · by_cases hq : p0.1 = q.1
      · exact absurd (by simp [hq]) hk
      · right
        rw [← hptransform]
        simp only [if_neg hq]
        refine ⟨?_, h0⟩
        intro hcontra
        exact hk (List.mem_cons_of_mem _ hcontra)

/-- **C5**: a rupture whose context construction signals `FarAwayRupture` is
skipped without error, without incrementing the effective-rupture counter
and without touching any curve accumulator; a call all of whose ruptures are
too far returns all-zero exceedance curves and a zero effective-rupture
count. -/
theorem far_away_ruptures_skipped :
    (∀ (env : TrtEnv) (r : Rupture) (rs : SubSites) (st : PerTrtState),
      env.cmaker.make_contexts rs r = .far →
      processRupture env r rs st = (st, none)) ∧
    (∀ (cmakerOf : List Gsim → Option Prob → ContextMaker) (sources : List Source)
      (sites : SubSites) (imtls : List (String × List Prob)) (gsims : List Gsim)
      (truncation_level : Option Prob) (srcF : SourceFilter)
      (rupF : RuptureFilter) (md : Option Prob) (monitor : Monitor),
      (imtls.map Prod.fst).Nodup →
      (∀ src ∈ sources, ∀ s_sites, srcF.apply src sites = some s_sites →
        ∀ x ∈ ruptureStream rupF s_sites src.iter_ruptures,
        ∃ r rs, x = .ok (r, rs) ∧
          (cmakerOf gsims md).make_contexts rs r = .far) →
      ∃ m cs, hazard_curves_per_trt cmakerOf sources sites imtls gsims
          truncation_level srcF rupF md monitor = (m, .ok cs) ∧
        m.eff_ruptures = 0 ∧
        ∀ c ∈ cs, ∀ p ∈ c, ∀ row ∈ p.2, ∀ x ∈ row, x = (0 : Prob)) := by
  constructor
  · exact fun env r rs st h => processRupture_far env r rs st h
  · intro cmakerOf sources sites imtls gsims truncation_level srcF rupF md
      monitor hnd hfar
    obtain ⟨st1, h1, h2, h3⟩ := processSources_far
      (trtEnv cmakerOf sites imtls gsims truncation_level srcF rupF md)
      sources hfar
      ⟨gsims.map (fun _ => onesCurves sites.sids.length imtls), 0, []⟩
    refine ⟨⟨st1.calc_times, st1.eff_ruptures⟩,
      st1.curves.map (invertCurve imtls), ?_, by simpa using h3, ?_⟩
    · rw [hazard_curves_per_trt, h1]
    · intro c hc p hp row hrow x hx
      rw [h2] at hc
      obtain ⟨c0, hc0, rfl⟩ := List.mem_map.1 hc
      obtain ⟨g0, _, rfl⟩ := List.mem_map.1 hc0
      exact invertCurve_values imtls _ hnd
        (fun p0 hp0 => Or.inl (onesCurves_entries _ imtls p0 hp0)) p hp row hrow x hx

/-- **C5**, witness: with a context maker that always signals
`FarAwayRupture`, the two-rupture source yields the all-zero exceedance
curve and a zero effective-rupture count. -/
theorem far_away_ruptures_skipped_witness :
    ∃ m cs, hazard_curves_per_trt farCmakerOf [srcA] oneSite [("PGA", [1/2])]
        [stubGsim] none source_site_noop_filter rupture_site_noop_filter none
        DummyMonitor = (m, .ok cs) ∧
      m.eff_ruptures = 0 ∧
      ∀ c ∈ cs, ∀ p ∈ c, ∀ row ∈ p.2, ∀ x ∈ row, x = (0 : Prob) := by
  refine far_away_ruptures_skipped.2 farCmakerOf [srcA] oneSite [("PGA", [1/2])]
    [stubGsim] none source_site_noop_filter rupture_site_noop_filter none
    DummyMonitor (by simp) ?_
  intro src hsrc s_sites hss x hx
  obtain rfl : src = srcA := by simpa using hsrc
  obtain rfl : oneSite = s_sites := by
    simpa [source_site_noop_filter] using hss
  rw [show ruptureStream rupture_site_noop_filter oneSite srcA.iter_ruptures
      = [.ok (constRupture (9/10), oneSite), .ok (constRupture (8/10), oneSite)]
    from by with_unfolding_all rfl] at hx
  simp only [List.mem_cons, List.not_mem_nil, or_false] at hx
  rcases hx with rfl | rfl
  · exact ⟨constRupture (9/10), oneSite, rfl, rfl⟩
  · exact ⟨constRupture (8/10), oneSite, rfl, rfl⟩

/-! ### C4 -/

theorem processSources_error (env : TrtEnv) :
    ∀ (srcs : List Source) (st st1 : PerTrtState) (e1 : PyErr),
      processSources env srcs st = (st1, some e1) →
      ∃ pre src rest s_sites e, srcs = pre ++ src :: rest ∧
        env.source_site_filter.apply src env.sites = some s_sites ∧
        e1 = wrapSourceErr src e ∧
        st1.calc_times = st.calc_times ++
          (pre.filter
            (fun s => (env.source_site_filter.apply s env.sites).isSome)).map
            (fun s => (s.id, (0 : Prob))) := by
  intro srcs
  induction srcs with
  | nil =>
    intro st st1 e1 h
    rw [processSources] at h
    simp [Prod.ext_iff] at h
  | cons src rest ih =>
    intro st st1 e1 h
    cases hsf : env.source_site_filter.apply src env.sites with
    | none =>
      rw [processSources] at h
      simp only [hsf] at h
      obtain ⟨pre, src1, rest1, s_sites, e, hsplit, hsf1, he1, hct⟩ :=
        ih st st1 e1 h
      refine ⟨src :: pre, src1, rest1, s_sites, e, by rw [hsplit, List.cons_append],
        hsf1, he1, ?_⟩
      rw [hct, List.filter_cons]
      simp [hsf]
    | some s_sites =>
      rw [processSources] at h
      simp only [hsf] at h
      cases hpr : processRuptures env
          (ruptureStream env.rupture_site_filter s_sites src.iter_ruptures) st with
      | mk stm oe =>
        simp only [hpr] at h
        have hct0 : stm.calc_times = st.calc_times := by
          have := processRuptures_calc_times env
            (ruptureStream env.rupture_site_filter s_sites src.iter_ruptures) st
          rw [hpr] at this
          exact this
        cases oe with
        | some e =>
          obtain ⟨h1, h2⟩ : stm = st1 ∧ wrapSourceErr src e = e1 := by
            simpa [Prod.ext_iff] using h
          exact ⟨[], src, rest, s_sites, e, rfl, hsf, h2.symm,
            by rw [← h1, hct0]; simp⟩
        | none =>
          obtain ⟨pre, src1, rest1, s_sites1, e, hsplit, hsf1, he1, hct⟩ :=
            ih _ st1 e1 h
          refine ⟨src :: pre, src1, rest1, s_sites1, e,
            by rw [hsplit, List.cons_append], hsf1, he1, ?_⟩
          rw [hct]
          simp only [hct0]
          rw [List.filter_cons]
          simp [hsf, List.append_assoc]

/-- **C4**: an exception raised while processing a source inside
`hazard_curves_per_trt` is re-raised with the same exception type and
traceback and with the source's string `source_id` inside the message
`'An error occurred with source id=%s. Error: %s'`; the timing log keeps the
entries of the sources completed before the failure (no rollback), and a
group error propagates unchanged out of `calc_hazard_curves`, whose caller
gets no partial curves. -/
theorem source_errors_are_wrapped
    (cmakerOf : List Gsim → Option Prob → ContextMaker) (sources : List Source)
    (sites : SubSites) (imtls : List (String × List Prob)) (gsims : List Gsim)
    (truncation_level : Option Prob) (srcF : SourceFilter) (rupF : RuptureFilter)
    (md : Option Prob) (monitor : Monitor) {m : Monitor} {e1 : PyErr}
    (herr : hazard_curves_per_trt cmakerOf sources sites imtls gsims
      truncation_level srcF rupF md monitor = (m, .error e1)) :
    (∃ pre src rest s_sites e,
      sources = pre ++ src :: rest ∧
      srcF.apply src sites = some s_sites ∧
      e1 = wrapSourceErr src e ∧
      e1.etype = e.etype ∧ e1.tb = e.tb ∧
      e1.msg = "An error occurred with source id=" ++ src.source_id
        ++ ". Error: " ++ e.msg ∧
      m.calc_times = (pre.filter (fun s => (srcF.apply s sites).isSome)).map
        (fun s => (s.id, (0 : Prob)))) ∧
    (∀ (sources2 : List Source) (gsim_by_trt : List (String × Gsim))
      (g : Gsim) (trt : String) (rest2 : List String) (md2 : Option Prob)
      (e2 : PyErr),
      trtOrder sources2 = trt :: rest2 →
      List.lookup trt gsim_by_trt = some g →
      (hazard_curves_per_trt cmakerOf (sourcesOfTrt sources2 trt) sites imtls
        [g] truncation_level srcF rupF none DummyMonitor).2 = .error e2 →
      calc_hazard_curves cmakerOf sources2 sites imtls gsim_by_trt
        truncation_level srcF rupF md2 = .error e2) := by
  constructor
  · rw [hazard_curves_per_trt] at herr
    cases hps : processSources
        (trtEnv cmakerOf sites imtls gsims truncation_level srcF rupF md)
        sources
        ⟨gsims.map (fun _ => onesCurves sites.sids.length imtls), 0, []⟩ with
    | mk st oe =>
      rw [hps] at herr
      cases oe with
      | none => simp [Prod.ext_iff] at herr
      | some e0 =>
        obtain ⟨hm, he⟩ : (⟨st.calc_times, st.eff_ruptures⟩ : Monitor) = m
            ∧ e0 = e1 := by
          simpa [Prod.ext_iff] using herr
        subst he
        obtain ⟨pre, src, rest, s_sites, e, hsplit, hsf, he0, hct⟩ :=
          processSources_error _ sources _ st e0 hps
        subst he0
        exact ⟨pre, src, rest, s_sites, e, hsplit, hsf, rfl, rfl, rfl, rfl,
          by rw [← hm]; simpa using hct⟩
  · intro sources2 gsim_by_trt g trt rest2 md2 e2 hord hlook hper
    rw [calc_hazard_curves, hord]
    simp only [calcGroups, hlook, hper]

/-- **C4**, witness: with one completing source followed by a failing one,
the call fails with a `ValueError` whose message embeds `source_id = "BAD"`,
the traceback token is preserved, and the timing log keeps the completed
source's entry. -/
theorem source_errors_are_wrapped_witness :
    ∃ pre src rest s_sites e,
      [goodSrc, badSrc] = pre ++ src :: rest ∧
      source_site_noop_filter.apply src oneSite = some s_sites ∧
      (⟨"ValueError",
        "An error occurred with source id=BAD. Error: boom", 7⟩ : PyErr)
        = wrapSourceErr src e ∧
      (⟨"ValueError",
        "An error occurred with source id=BAD. Error: boom", 7⟩ : PyErr).etype
        = e.etype ∧
      (⟨"ValueError",
        "An error occurred with source id=BAD. Error: boom", 7⟩ : PyErr).tb
        = e.tb ∧
      (⟨"ValueError",
        "An error occurred with source id=BAD. Error: boom", 7⟩ : PyErr).msg
        = "An error occurred with source id=" ++ src.source_id
          ++ ". Error: " ++ e.msg ∧
      (⟨[((1 : ℤ), (0 : Prob))], 2⟩ : Monitor).calc_times
        = (pre.filter
            (fun s => (source_site_noop_filter.apply s oneSite).isSome)).map
            (fun s => (s.id, (0 : Prob))) := by
  exact (source_errors_are_wrapped okCmakerOf [goodSrc, badSrc] oneSite
    [("PGA", [1/2])] [stubGsim] none source_site_noop_filter
    rupture_site_noop_filter none DummyMonitor
    (by with_unfolding_all rfl)).1

/-! ### The fold inside `agg_curves` -/

theorem lookupField_eq_of_mem {c : CurveAcc} {k : String} {F : Field}
    (hnd : (c.map Prod.fst).Nodup) (hmem : (k, F) ∈ c) :
    lookupField c k = some F := by
  induction c with
  | nil => simp at hmem
  | cons p t ih =>
    simp only [List.map_cons, List.nodup_cons] at hnd
    rcases List.mem_cons.1 hmem with hh | hh
    · rw [← hh]
      exact lookupField_cons_self (p := (k, F))
    · have hk : p.1 ≠ k := by
        intro hcontra
        exact hnd.1 (hcontra ▸ List.mem_map.2 ⟨(k, F), hh, rfl⟩)
      rw [lookupField_cons_ne hk]
      exact ih hnd.2 hh

theorem agg_fold_keys (acc : CurveAcc) :
    ∀ (l : List (String × Field)) (new : CurveAcc),
      ((l.foldl (fun new p =>
        match lookupField acc p.1 with
        | some aF => setField new p.1 (aggField aF p.2)
        | none => new) new).map Prod.fst) = new.map Prod.fst := by
  intro l
  induction l with
  | nil => intro new; rfl
  | cons q t ih =>
    intro new
    rw [List.foldl_cons]
    cases hl : lookupField acc q.1 with
    | none => simp only [hl]; exact ih new
    | some aF =>
      simp only [hl]
      rw [ih (setField new q.1 (aggField aF q.2))]
      exact setField_keys new q.1 _

theorem agg_fold_notmem (acc : CurveAcc) :
    ∀ (l : List (String × Field)) (new : CurveAcc) {k : String},
      k ∉ l.map Prod.fst →
      lookupField (l.foldl (fun new p =>
        match lookupField acc p.1 with
        | some aF => setField new p.1 (aggField aF p.2)
        | none => new) new) k = lookupField new k := by
  intro l
  induction l with
  | nil => intro new k _; rfl
  | cons q t ih =>
    intro new k hk
    simp only [List.map_cons, List.mem_cons, not_or] at hk
    rw [List.foldl_cons]
    cases hl : lookupField acc q.1 with
    | none => simp only [hl]; exact ih new hk.2
    | some aF =>
      simp only [hl]
      rw [ih _ hk.2]
      exact lookupField_setField_ne _ (fun hh => hk.1 hh.symm)

theorem agg_fold_acc_none (acc : CurveAcc) :
    ∀ (l : List (String × Field)) (new : CurveAcc) {k : String},
      lookupField acc k = none →
      lookupField (l.foldl (fun new p =>
        match lookupField acc p.1 with
        | some aF => setField new p.1 (aggField aF p.2)
        | none => new) new) k = lookupField new k := by
  intro l
  induction l with
  | nil => intro new k _; rfl
  | cons q t ih =>
    intro new k hacc
    rw [List.foldl_cons]
    by_cases hqk : q.1 = k
    · rw [show lookupField acc q.1 = none from hqk ▸ hacc]
      exact ih new hacc
    · cases hl : lookupField acc q.1 with
      | none => simp only [hl]; exact ih new hacc
      | some aF =>
        simp only [hl]
        rw [ih _ hacc]
        exact lookupField_setField_ne _ hqk

theorem agg_fold_mem (acc : CurveAcc) :
    ∀ (l : List (String × Field)) (new : CurveAcc) {k : String} {cF aF : Field},
      (l.map Prod.fst).Nodup → (k, cF) ∈ l → lookupField acc k = some aF →
      k ∈ new.map Prod.fst →
      lookupField (l.foldl (fun new p =>
        match lookupField acc p.1 with
        | some aF => setField new p.1 (aggField aF p.2)
        | none => new) new) k = some (aggField aF cF) := by
  intro l
  induction l with
  | nil => intro new k cF aF _ hmem; simp at hmem
  | cons q t ih =>
    intro new k cF aF hnd hmem hacc hknew
    simp only [List.map_cons, List.nodup_cons] at hnd
    rw [List.foldl_cons]
    by_cases hqk : q.1 = k
    · have hq2 : q.2 = cF := by
        rcases List.mem_cons.1 hmem with hh | hh
        · rw [← hh]
        · exact absurd (hqk ▸ List.mem_map.2 ⟨(k, cF), hh, rfl⟩) hnd.1
      rw [show lookupField acc q.1 = some aF from hqk ▸ hacc]
      rw [agg_fold_notmem acc t _ (hqk ▸ hnd.1)]
      rw [hq2, hqk]
      exact lookupField_setField_self _ hknew
    · have hmem2 : (k, cF) ∈ t := by
        rcases List.mem_cons.1 hmem with hh | hh
        · exact absurd (congrArg Prod.fst hh.symm) hqk
        · exact hh
      cases hl : lookupField acc q.1 with
      | none => simp only [hl]; exact ih new hnd.2 hmem2 hacc hknew
      | some aF2 =>
        simp only [hl]
        refine ih _ hnd.2 hmem2 hacc ?_
        rw [setField_keys]
        exact hknew

theorem agg_curves_keys (acc curves : CurveAcc) :
    (agg_curves acc curves).map Prod.fst = acc.map Prod.fst := by
  rw [agg_curves]
  exact agg_fold_keys acc curves acc

theorem lookupField_agg_curves (acc curves : CurveAcc)
    (hnd : (curves.map Prod.fst).Nodup) (k : String) :
    lookupField (agg_curves acc curves) k =
      match lookupField acc k, lookupField curves k with
      | some aF, some cF => some (aggField aF cF)
      | some aF, none => some aF
      | none, _ => none := by
  rw [agg_curves]
  cases hacc : lookupField acc k with
  | none =>
    rw [agg_fold_acc_none acc curves acc hacc, hacc]
  | some aF =>
    cases hcur : lookupField curves k with
    | some cF =>
      exact agg_fold_mem acc curves acc hnd (mem_of_lookupField hcur) hacc
        (lookupField_isSome_iff.1 (by rw [hacc]; rfl))
    | none =>
      have hk : k ∉ curves.map Prod.fst := by
        intro hk
        rw [← lookupField_isSome_iff (c := curves)] at hk
        rw [hcur] at hk
        cases hk
      rw [agg_fold_notmem acc curves acc hk, hacc]

/-! ### C2 -/

/-- **C2**: the group curve produced for each tectonic region is composed
into the running accumulator by `agg_curves`, which computes
`new = 1 - (1 - group_curve) * (1 - running_accumulator)` field-wise per IMT
and value-wise per site and level, and `calc_hazard_curves` performs exactly
this composition step group by group starting from `zero_curves`. -/
theorem calc_hazard_curves_composes_with_agg :
    (∀ (acc curves : CurveAcc) (imt : String) (aF cF : Field),
      (curves.map Prod.fst).Nodup → lookupField acc imt = some aF →
      (imt, cF) ∈ curves →
      lookupField (agg_curves acc curves) imt = some (aggField aF cF)) ∧
    (∀ (aF cF : Field) (i j : ℕ) (rowA rowC : List Prob) (a c : Prob),
      rowA ∈ aF.get? i → rowC ∈ cF.get? i → a ∈ rowA.get? j → c ∈ rowC.get? j →
      ∃ rowN, (aggField aF cF).get? i = some rowN ∧
        rowN.get? j = some (1 - (1 - c) * (1 - a))) ∧
    (∀ (cmakerOf : List Gsim → Option Prob → ContextMaker) (sources : List Source)
      (sites : SubSites) (imtls : List (String × List Prob))
      (gsim_by_trt : List (String × Gsim)) (truncation_level : Option Prob)
      (srcF : SourceFilter) (rupF : RuptureFilter) (md : Option Prob)
      (trt : String) (rest : List String) (g : Gsim) (c : CurveAcc)
      (cs2 : List CurveAcc) (curves : CurveAcc),
      List.lookup trt gsim_by_trt = some g →
      (hazard_curves_per_trt cmakerOf (sourcesOfTrt sources trt) sites imtls
        [g] truncation_level srcF rupF none DummyMonitor).2 = .ok (c :: cs2) →
      calcGroups cmakerOf sources sites imtls gsim_by_trt truncation_level
          srcF rupF (trt :: rest) curves
        = calcGroups cmakerOf sources sites imtls gsim_by_trt truncation_level
          srcF rupF rest (agg_curves curves c) ∧
      calc_hazard_curves cmakerOf sources sites imtls gsim_by_trt
          truncation_level srcF rupF md
        = calcGroups cmakerOf sources sites imtls gsim_by_trt truncation_level
          srcF rupF (trtOrder sources)
          (zero_curves sites.sids.length (imtls.map fun p => (p.1, some p.2)))) := by
  refine ⟨?_, ?_, ?_⟩
  · intro acc curves imt aF cF hnd hacc hmem
    rw [lookupField_agg_curves acc curves hnd imt, hacc]
    cases hcur : lookupField curves imt with
    | some cF2 =>
      have h2 : cF2 = cF := by
        have := lookupField_eq_of_mem hnd hmem
        rw [hcur] at this
        simpa using this
      rw [h2]
    | none =>
      exact absurd (lookupField_isSome_iff.2 (List.mem_map.2 ⟨(imt, cF), hmem, rfl⟩))
        (by rw [hcur]; simp)
  · intro aF cF i j rowA rowC a c hA hC ha hc
    rw [Option.mem_def] at hA hC ha hc
    refine ⟨List.zipWith (fun a c => 1 - (1 - c) * (1 - a)) rowA rowC, ?_, ?_⟩
    · rw [aggField]
      rw [List.get?_eq_getElem?, List.getElem?_zipWith_eq_some]
      exact ⟨rowA, rowC, by rw [← List.get?_eq_getElem?]; exact hA,
        by rw [← List.get?_eq_getElem?]; exact hC, rfl⟩
    · rw [List.get?_eq_getElem?, List.getElem?_zipWith_eq_some]
      exact ⟨a, c, by rw [← List.get?_eq_getElem?]; exact ha,
        by rw [← List.get?_eq_getElem?]; exact hc, rfl⟩
  · intro cmakerOf sources sites imtls gsim_by_trt truncation_level srcF rupF md
      trt rest g c cs2 curves hlook hper
    refine ⟨?_, rfl⟩
    simp only [calcGroups, hlook, hper]

/-- **C2**, witness: two group curves with exceedance probabilities 0.1 and
0.2 at the same site/IMT/level compose to 1 − (1−0.1)(1−0.2) = 0.28. -/
theorem calc_hazard_curves_composes_with_agg_witness :
    lookupField (agg_curves [("PGA", [[1/10]])] [("PGA", [[1/5]])]) "PGA"
      = some (aggField [[1/10]] [[1/5]]) ∧
    aggField [[(1 : Prob)/10]] [[(1 : Prob)/5]] = [[(7 : Prob)/25]] := by
  constructor
  · exact calc_hazard_curves_composes_with_agg.1 [("PGA", [[1/10]])]
      [("PGA", [[1/5]])] "PGA" [[1/10]] [[1/5]] (by simp)
      (by with_unfolding_all rfl) (by with_unfolding_all decide)
  · with_unfolding_all decide

/-! ### Field algebra for C6 -/


theorem zipWith_assoc_of_assoc {α : Type} (f : α → α → α)
    (h : ∀ a b c, f (f a b) c = f a (f b c)) :
    ∀ (A B C : List α), List.zipWith f (List.zipWith f A B) C
      = List.zipWith f A (List.zipWith f B C) := by
  intro A
  induction A with
  | nil => intro B C; rfl
  | cons a A ih =>
    intro B C
    cases B with
    | nil => rfl
    | cons b B =>
      cases C with
      | nil => rfl
      | cons c C => simp only [List.zipWith_cons_cons, h, ih]

theorem aggField_comm (F G : Field) : aggField F G = aggField G F := by
  rw [aggField, aggField]
  exact List.zipWith_comm_of_comm _
    (fun x y => List.zipWith_comm_of_comm _ (fun a c => by ring) x y) F G

theorem aggField_assoc (A B C : Field) :
    aggField (aggField A B) C = aggField A (aggField B C) :=
  zipWith_assoc_of_assoc _
    (fun x y z => zipWith_assoc_of_assoc _ (fun a b c => by ring) x y z) A B C

theorem mulField_assoc (A B C : Field) :
    mulField (mulField A B) C = mulField A (mulField B C) :=
  zipWith_assoc_of_assoc _
    (fun x y z => zipWith_assoc_of_assoc _ (fun a b c => mul_assoc a b c) x y z)
    A B C

theorem exists_of_mem_zipWith {α β γ : Type} {f : α → β → γ} :
    ∀ {l1 : List α} {l2 : List β} {y : γ}, y ∈ List.zipWith f l1 l2 →
      ∃ a ∈ l1, ∃ b ∈ l2, y = f a b := by
  intro l1
  induction l1 with
  | nil => intro l2 y h; simp at h
  | cons a l1 ih =>
    intro l2 y h
    cases l2 with
    | nil => simp at h
    | cons b l2 =>
      rw [List.zipWith_cons_cons] at h
      rcases List.mem_cons.1 h with rfl | h
      · exact ⟨a, List.mem_cons_self _ _, b, List.mem_cons_self _ _, rfl⟩
      · obtain ⟨a1, ha1, b1, hb1, rfl⟩ := ih h
        exact ⟨a1, List.mem_cons_of_mem _ ha1, b1, List.mem_cons_of_mem _ hb1, rfl⟩

theorem mulField_shape {N L : ℕ} {a b : Field}
    (ha : FieldShape N L a) (hb : FieldShape N L b) :
    FieldShape N L (mulField a b) := by
  constructor
  · rw [mulField, List.length_zipWith, ha.1, hb.1, Nat.min_self]
  · intro row hrow
    obtain ⟨ra, hra, rb, hrb, rfl⟩ := exists_of_mem_zipWith hrow
    rw [List.length_zipWith, ha.2 ra hra, hb.2 rb hrb, Nat.min_self]

theorem onesF_shape (N L : ℕ) :
    FieldShape N L (List.replicate N (List.replicate L (1 : Prob))) := by
  refine ⟨List.length_replicate _ _, fun row hrow => ?_⟩
  rw [List.eq_of_mem_replicate hrow]
  exact List.length_replicate _ _

theorem zipWith_one_mul {L : ℕ} {row : List Prob} (h : row.length = L) :
    List.zipWith (· * ·) (List.replicate L (1 : Prob)) row = row := by
  subst h
  induction row with
  | nil => rfl
  | cons x xs ih => simp only [List.length_cons, List.replicate_succ,
      List.zipWith_cons_cons, one_mul, ih]

theorem zipWith_mul_one {L : ℕ} {row : List Prob} (h : row.length = L) :
    List.zipWith (· * ·) row (List.replicate L (1 : Prob)) = row := by
  subst h
  induction row with
  | nil => rfl
  | cons x xs ih => simp only [List.length_cons, List.replicate_succ,
      List.zipWith_cons_cons, mul_one, ih]

theorem mulField_ones_left {N L : ℕ} {f : Field} (hf : FieldShape N L f) :
    mulField (List.replicate N (List.replicate L 1)) f = f := by
  obtain ⟨hlen, hrows⟩ := hf
  subst hlen
  induction f with
  | nil => rfl
  | cons row t ih =>
    rw [List.length_cons, List.replicate_succ, mulField, List.zipWith_cons_cons]
    rw [zipWith_one_mul (hrows row (List.mem_cons_self _ _))]
    rw [show List.zipWith (List.zipWith (· * ·))
        (List.replicate t.length (List.replicate L 1)) t
      = mulField (List.replicate t.length (List.replicate L 1)) t from rfl]
    rw [ih (fun r hr => hrows r (List.mem_cons_of_mem _ hr))]

theorem mulField_ones_right {N L : ℕ} {f : Field} (hf : FieldShape N L f) :
    mulField f (List.replicate N (List.replicate L 1)) = f := by
  obtain ⟨hlen, hrows⟩ := hf
  subst hlen
  induction f with
  | nil => rfl
  | cons row t ih =>
    rw [List.length_cons, List.replicate_succ, mulField, List.zipWith_cons_cons]
    rw [zipWith_mul_one (hrows row (List.mem_cons_self _ _))]
    rw [show List.zipWith (List.zipWith (· * ·)) t
        (List.replicate t.length (List.replicate L 1))
      = mulField t (List.replicate t.length (List.replicate L 1)) from rfl]
    rw [ih (fun r hr => hrows r (List.mem_cons_of_mem _ hr))]

theorem foldl_mulField_shape {N L : ℕ} :
    ∀ (l : List Field) (x : Field), FieldShape N L x →
      (∀ f ∈ l, FieldShape N L f) → FieldShape N L (l.foldl mulField x) := by
  intro l
  induction l with
  | nil => intro x hx _; exact hx
  | cons h t ih =>
    intro x hx hl
    rw [List.foldl_cons]
    exact ih (mulField x h) (mulField_shape hx (hl h (List.mem_cons_self _ _)))
      (fun f hf => hl f (List.mem_cons_of_mem _ hf))

theorem foldl_mulField_factor {N L : ℕ} :
    ∀ (l : List Field) (x : Field), FieldShape N L x →
      (∀ f ∈ l, FieldShape N L f) →
      l.foldl mulField x
        = mulField x (l.foldl mulField (List.replicate N (List.replicate L 1))) := by
  intro l
  induction l with
  | nil => intro x hx _; exact (mulField_ones_right hx).symm
  | cons h t ih =>
    intro x hx hl
    have hh := hl h (List.mem_cons_self _ _)
    rw [List.foldl_cons, List.foldl_cons]
    rw [ih (mulField x h) (mulField_shape hx hh)
      (fun f hf => hl f (List.mem_cons_of_mem _ hf))]
    rw [mulField_assoc, mulField_ones_left hh]
    rw [ih h hh (fun f hf => hl f (List.mem_cons_of_mem _ hf))]

theorem map_zipWith_pointwise {α β : Type} (f : α → α → α) (g : α → β)
    (h : β → β → β) (hpt : ∀ a b, g (f a b) = h (g a) (g b)) :
    ∀ (l1 l2 : List α), List.map g (List.zipWith f l1 l2)
      = List.zipWith h (List.map g l1) (List.map g l2) := by
  intro l1
  induction l1 with
  | nil => intro l2; rfl
  | cons a l1 ih =>
    intro l2
    cases l2 with
    | nil => rfl
    | cons b l2 =>
      simp only [List.zipWith_cons_cons, List.map_cons, hpt, ih]

theorem invField_mulField (P Q : Field) :
    invField (mulField P Q) = aggField (invField P) (invField Q) :=
  map_zipWith_pointwise _ _ _
    (fun ra rb => map_zipWith_pointwise _ _ _ (fun a b => by ring) ra rb) P Q

/-! ### C6 -/

/-- **C6**: `agg_curves` is commutative and associative on accumulators over
the same IMT fields, and splitting the sources of one region into two parts,
computing curves separately and composing with `agg_curves`'s field rule
gives the same curve as computing over the full source list at once. -/
theorem agg_curves_comm_assoc_partition :
    (∀ (a b : CurveAcc), a.map Prod.fst = b.map Prod.fst →
      (a.map Prod.fst).Nodup → agg_curves a b = agg_curves b a) ∧
    (∀ (a b c : CurveAcc), a.map Prod.fst = b.map Prod.fst →
      b.map Prod.fst = c.map Prod.fst → (a.map Prod.fst).Nodup →
      agg_curves (agg_curves a b) c = agg_curves a (agg_curves b c)) ∧
    (∀ (cmakerOf : List Gsim → Option Prob → ContextMaker)
      (s1 s2 : List Source) (sites : SubSites)
      (imtls : List (String × List Prob)) (gsims : List Gsim)
      (truncation_level : Option Prob) (srcF : SourceFilter)
      (rupF : RuptureFilter) (md : Option Prob) (m1 m2 m3 : Monitor)
      (i : ℕ) (g : Gsim) (imt : String) (imls : List Prob)
      (cs12 cs1 cs2 : List CurveAcc),
      (imtls.map Prod.fst).Nodup → (imt, imls) ∈ imtls → gsims[i]? = some g →
      (hazard_curves_per_trt cmakerOf (s1 ++ s2) sites imtls gsims
        truncation_level srcF rupF md m1).2 = .ok cs12 →
      (hazard_curves_per_trt cmakerOf s1 sites imtls gsims
        truncation_level srcF rupF md m2).2 = .ok cs1 →
      (hazard_curves_per_trt cmakerOf s2 sites imtls gsims
        truncation_level srcF rupF md m3).2 = .ok cs2 →
      (∀ f ∈ contribsOfSources (trtEnv cmakerOf sites imtls gsims
          truncation_level srcF rupF md) g imt imls (s1 ++ s2),
        FieldShape sites.sids.length imls.length f) →
      ∃ c12 c1 c2 F1 F2, cs12[i]? = some c12 ∧ cs1[i]? = some c1 ∧
        cs2[i]? = some c2 ∧
        lookupField c1 imt = some F1 ∧ lookupField c2 imt = some F2 ∧
        lookupField c12 imt = some (aggField F1 F2)) := by
  have hiff : ∀ (a b : CurveAcc), a.map Prod.fst = b.map Prod.fst →
      ∀ k, (lookupField a k).isSome ↔ (lookupField b k).isSome := by
    intro a b hkeys k
    rw [lookupField_isSome_iff, lookupField_isSome_iff, hkeys]
  refine ⟨?_, ?_, ?_⟩
  · intro a b hkeys hnd
    have hndb : (b.map Prod.fst).Nodup := hkeys ▸ hnd
    apply curveacc_ext
    · rw [agg_curves_keys, agg_curves_keys, hkeys]
    · rw [agg_curves_keys]
      exact hnd
    · intro k
      rw [lookupField_agg_curves a b hndb k, lookupField_agg_curves b a hnd k]
      cases hla : lookupField a k with
      | none =>
        have hlb : lookupField b k = none := by
          cases hlb2 : lookupField b k with
          | none => rfl
          | some bF =>
            have := (hiff a b hkeys k).2 (by rw [hlb2]; rfl)
            rw [hla] at this
            cases this
        rw [hlb]
      | some aF =>
        cases hlb : lookupField b k with
        | none =>
          have := (hiff a b hkeys k).1 (by rw [hla]; rfl)
          rw [hlb] at this
          cases this
        | some bF =>
          simp only [aggField_comm]
  · intro a b c hab hbc hnd
    have hndb : (b.map Prod.fst).Nodup := hab ▸ hnd
    have hndc : (c.map Prod.fst).Nodup := hbc ▸ hndb
    apply curveacc_ext
    · rw [agg_curves_keys, agg_curves_keys, agg_curves_keys]
    · rw [agg_curves_keys, agg_curves_keys]
      exact hnd
    · intro k
      have hndbc : ((agg_curves b c).map Prod.fst).Nodup := by
        rw [agg_curves_keys]
        exact hndb
      rw [lookupField_agg_curves _ c hndc k, lookupField_agg_curves a b hndb k,
        lookupField_agg_curves a _ hndbc k, lookupField_agg_curves b c hndc k]
      cases hla : lookupField a k with
      | none => rfl
      | some aF =>
        have hsb := (hiff a b hab k).1 (by rw [hla]; rfl)
        cases hlb : lookupField b k with
        | none => rw [hlb] at hsb; cases hsb
        | some bF =>
          have hsc := (hiff b c hbc k).1 (by rw [hlb]; rfl)
          cases hlc : lookupField c k with
          | none => simp [hlc] at hsc
          | some cF => simp only [aggField_assoc]
  · intro cmakerOf s1 s2 sites imtls gsims truncation_level srcF rupF md
      m1 m2 m3 i g imt imls cs12 cs1 cs2 hnd hmem hg h12 h1 h2 hshape
    obtain ⟨c12, hi12, hl12⟩ := perTrt_ok_product cmakerOf (s1 ++ s2) sites imtls
      gsims truncation_level srcF rupF md m1 hnd hmem hg h12
    obtain ⟨c1, hi1, hl1⟩ := perTrt_ok_product cmakerOf s1 sites imtls
      gsims truncation_level srcF rupF md m2 hnd hmem hg h1
    obtain ⟨c2, hi2, hl2⟩ := perTrt_ok_product cmakerOf s2 sites imtls
      gsims truncation_level srcF rupF md m3 hnd hmem hg h2
    rw [contribsOfSources_append] at hl12 hshape
    have hsh1 : ∀ f ∈ contribsOfSources (trtEnv cmakerOf sites imtls gsims
        truncation_level srcF rupF md) g imt imls s1,
        FieldShape sites.sids.length imls.length f :=
      fun f hf => hshape f (List.mem_append_left _ hf)
    have hsh2 : ∀ f ∈ contribsOfSources (trtEnv cmakerOf sites imtls gsims
        truncation_level srcF rupF md) g imt imls s2,
        FieldShape sites.sids.length imls.length f :=
      fun f hf => hshape f (List.mem_append_right _ hf)
    have hsplit : List.foldl mulField
        (List.replicate sites.sids.length (List.replicate imls.length 1))
        (contribsOfSources (trtEnv cmakerOf sites imtls gsims truncation_level
          srcF rupF md) g imt imls s1
          ++ contribsOfSources (trtEnv cmakerOf sites imtls gsims truncation_level
            srcF rupF md) g imt imls s2)
        = mulField
          (List.foldl mulField
            (List.replicate sites.sids.length (List.replicate imls.length 1))
            (contribsOfSources (trtEnv cmakerOf sites imtls gsims truncation_level
              srcF rupF md) g imt imls s1))
          (List.foldl mulField
            (List.replicate sites.sids.length (List.replicate imls.length 1))
            (contribsOfSources (trtEnv cmakerOf sites imtls gsims truncation_level
              srcF rupF md) g imt imls s2)) := by
      rw [List.foldl_append]
      exact foldl_mulField_factor _ _
        (foldl_mulField_shape _ _ (onesF_shape _ _) hsh1) hsh2
    rw [hsplit, invField_mulField] at hl12
    exact ⟨c12, c1, c2, _, _, hi12, hi1, hi2, hl1, hl2, hl12⟩

/-- **C6**, witness: one region's two sources split into two singleton
parts; the separately computed curves 0.1 and 0.2 compose with `agg_curves`
to the full-set curve 0.28. -/
theorem agg_curves_comm_assoc_partition_witness :
    ∃ c12 c1 c2 F1 F2,
      ([[("PGA", [[(7 : Prob)/25]])]] : List CurveAcc)[0]? = some c12 ∧
      ([[("PGA", [[(1 : Prob)/10]])]] : List CurveAcc)[0]? = some c1 ∧
      ([[("PGA", [[(1 : Prob)/5]])]] : List CurveAcc)[0]? = some c2 ∧
      lookupField c1 "PGA" = some F1 ∧ lookupField c2 "PGA" = some F2 ∧
      lookupField c12 "PGA" = some (aggField F1 F2) := by
  exact agg_curves_comm_assoc_partition.2.2 okCmakerOf
    [⟨1, "S1", "active", [.ok (constRupture (9/10))]⟩]
    [⟨2, "S2", "active", [.ok (constRupture (8/10))]⟩]
    oneSite [("PGA", [1/2])] [stubGsim] none source_site_noop_filter
    rupture_site_noop_filter none DummyMonitor DummyMonitor DummyMonitor
    0 stubGsim "PGA" [1/2] [[("PGA", [[(7 : Prob)/25]])]]
    [[("PGA", [[(1 : Prob)/10]])]] [[("PGA", [[(1 : Prob)/5]])]]
    (by simp) (by simp) rfl (by with_unfolding_all rfl)
    (by with_unfolding_all rfl) (by with_unfolding_all rfl)
    (by with_unfolding_all decide)

/-! ### Unit-interval preservation -/

theorem tableIn01_expand {s : SubSites} {pno : PoeTable} (h : tableIn01 pno) :
    tableIn01 (s.expand pno 1) := by
  intro row hrow x hx
  rw [SubSites.expand] at hrow
  obtain ⟨j, _, hj⟩ := List.mem_map.1 hrow
  cases hf : (s.sids.zip pno).find? (fun p => p.1 == j) with
  | some p =>
    rw [hf] at hj
    have hp : p ∈ s.sids.zip pno := List.mem_of_find?_eq_some hf
    have : p.2 ∈ pno := (List.of_mem_zip (by rwa [show (p.1, p.2) = p from rfl])).2
    rw [← hj] at hx
    exact h p.2 this x hx
  | none =>
    rw [hf] at hj
    rw [← hj] at hx
    rw [List.eq_of_mem_replicate hx]
    exact ⟨zero_le_one, le_refl 1⟩

theorem tableIn01_mulField {a b : Field} (ha : tableIn01 a) (hb : tableIn01 b) :
    tableIn01 (mulField a b) := by
  intro row hrow x hx
  obtain ⟨ra, hra, rb, hrb, rfl⟩ := exists_of_mem_zipWith hrow
  obtain ⟨y, hy, z, hz, rfl⟩ := exists_of_mem_zipWith hx
  obtain ⟨hy0, hy1⟩ := ha ra hra y hy
  obtain ⟨hz0, hz1⟩ := hb rb hrb z hz
  exact ⟨mul_nonneg hy0 hz0, mul_le_one₀ hy1 hz0 hz1⟩

theorem tableIn01_invField {a : Field} (ha : tableIn01 a) :
    tableIn01 (invField a) := by
  intro row hrow x hx
  obtain ⟨ra, hra, rfl⟩ := List.mem_map.1 hrow
  obtain ⟨y, hy, rfl⟩ := List.mem_map.1 hx
  obtain ⟨hy0, hy1⟩ := ha ra hra y hy
  constructor <;> linarith

theorem tableIn01_aggField {a c : Field} (ha : tableIn01 a) (hc : tableIn01 c) :
    tableIn01 (aggField a c) := by
  intro row hrow x hx
  obtain ⟨ra, hra, rc, hrc, rfl⟩ := exists_of_mem_zipWith hrow
  obtain ⟨y, hy, z, hz, rfl⟩ := exists_of_mem_zipWith hx
  obtain ⟨hy0, hy1⟩ := ha ra hra y hy
  obtain ⟨hz0, hz1⟩ := hc rc hrc z hz
  have h1 : 0 ≤ (1 - z) * (1 - y) := mul_nonneg (by linarith) (by linarith)
  have h2 : (1 - z) * (1 - y) ≤ 1 :=
    mul_le_one₀ (by linarith) (by linarith) (by linarith)
  constructor <;> linarith

theorem curveIn01_mulInto {c : CurveAcc} {imt : String} {f : Field}
    (hc : curveIn01 c) (hf : tableIn01 f) : curveIn01 (mulInto c imt f) := by
  intro p hp
  obtain ⟨p0, hp0, rfl⟩ := List.mem_map.1 hp
  by_cases hk : p0.1 = imt
  · simp only [hk, if_pos rfl]
    exact tableIn01_mulField (hc p0 hp0) hf
  · simp only [if_neg hk]
    exact hc p0 hp0

theorem curveIn01_invInto {c : CurveAcc} {imt : String}
    (hc : curveIn01 c) : curveIn01 (invInto c imt) := by
  intro p hp
  obtain ⟨p0, hp0, rfl⟩ := List.mem_map.1 hp
  by_cases hk : p0.1 = imt
  · simp only [hk, if_pos rfl]
    exact tableIn01_invField (hc p0 hp0)
  · simp only [if_neg hk]
    exact hc p0 hp0

theorem curveIn01_setField {c : CurveAcc} {imt : String} {f : Field}
    (hc : curveIn01 c) (hf : tableIn01 f) : curveIn01 (setField c imt f) := by
  intro p hp
  obtain ⟨p0, hp0, rfl⟩ := List.mem_map.1 hp
  by_cases hk : p0.1 = imt
  · simp only [hk, if_pos rfl]
    exact hf
  · simp only [if_neg hk]
    exact hc p0 hp0

theorem curveIn01_invertCurve {il : List (String × List Prob)} :
    ∀ {c : CurveAcc}, curveIn01 c → curveIn01 (invertCurve il c) := by
  induction il with
  | nil => intro c hc; exact hc
  | cons q t ih =>
    intro c hc
    show curveIn01 (t.foldl (fun c1 p => invInto c1 p.1) (invInto c q.1))
    exact ih (curveIn01_invInto hc)

theorem curveIn01_onesCurves (N : ℕ) (imtls : List (String × List Prob)) :
    curveIn01 (onesCurves N imtls) := by
  intro p hp row hrow x hx
  have := (onesCurves_entries N imtls p hp).2 row hrow x hx
  rw [this]
  exact ⟨zero_le_one, le_refl 1⟩

theorem curveIn01_zero_curves (N : ℕ)
    (imtls : List (String × Option (List Prob))) :
    curveIn01 (zero_curves N imtls) := by
  intro p hp row hrow x hx
  obtain ⟨q, _, rfl⟩ := List.mem_map.1 hp
  rw [List.eq_of_mem_replicate hrow] at hx
  rw [List.eq_of_mem_replicate hx]
  exact ⟨le_refl 0, zero_le_one⟩

theorem curveIn01_agg_curves {acc curves : CurveAcc}
    (hacc : curveIn01 acc) (hcur : curveIn01 curves) :
    curveIn01 (agg_curves acc curves) := by
  rw [agg_curves]
  have aux : ∀ (l : List (String × Field)) (new : CurveAcc), curveIn01 new →
      (∀ p ∈ l, tableIn01 p.2) →
      curveIn01 (l.foldl (fun new p =>
        match lookupField acc p.1 with
        | some aF => setField new p.1 (aggField aF p.2)
        | none => new) new) := by
    intro l
    induction l with
    | nil => intro new hnew _; exact hnew
    | cons q t ih =>
      intro new hnew hl
      rw [List.foldl_cons]
      cases hlk : lookupField acc q.1 with
      | none =>
        simp only [hlk]
        exact ih new hnew (fun p hp => hl p (List.mem_cons_of_mem _ hp))
      | some aF =>
        simp only [hlk]
        refine ih _ ?_ (fun p hp => hl p (List.mem_cons_of_mem _ hp))
        exact curveIn01_setField hnew
          (tableIn01_aggField (hacc _ (mem_of_lookupField hlk))
            (hl q (List.mem_cons_self _ _)))
  exact aux curves acc hacc (fun p hp => hcur p hp)

theorem updateCurveImts_in01 (ctx : Contexts) (r : Rupture) (g : Gsim)
    (trunc : Option Prob) (hr : RuptureIn01 r) :
    ∀ (il : List (String × List Prob)) (c : CurveAcc), curveIn01 c →
      curveIn01 (updateCurveImts ctx r g trunc il c).1 := by
  intro il
  induction il with
  | nil => intro c hc; exact hc
  | cons q t ih =>
    intro c hc
    obtain ⟨k, ls⟩ := q
    rw [updateCurveImts]
    cases hp : g.get_poes ctx k ls trunc with
    | error e => exact hc
    | ok poes =>
      simp only [hp]
      cases hpn : r.get_probability_no_exceedance poes with
      | error e => exact hc
      | ok pno =>
        simp only [hpn]
        exact ih _ (curveIn01_mulInto hc (tableIn01_expand (hr poes pno hpn)))

theorem updateGsimList_in01 (ctx : Contexts) (r : Rupture) (trunc : Option Prob)
    (il : List (String × List Prob)) (hr : RuptureIn01 r) :
    ∀ (gs : List Gsim) (cs : List CurveAcc), (∀ c ∈ cs, curveIn01 c) →
      ∀ c ∈ (updateGsimList ctx r trunc il gs cs).1, curveIn01 c := by
  intro gs
  induction gs with
  | nil => intro cs hcs; exact hcs
  | cons g0 gs ih =>
    intro cs hcs
    cases cs with
    | nil => intro c hc; simp [updateGsimList] at hc
    | cons c0 cs =>
      rw [updateGsimList]
      cases hu : updateCurveImts ctx r g0 trunc il c0 with
      | mk c1 oe =>
        have hc1 : curveIn01 c1 := by
          have := updateCurveImts_in01 ctx r g0 trunc hr il c0
            (hcs c0 (List.mem_cons_self _ _))
          rw [hu] at this
          exact this
        cases oe with
        | some e =>
          intro c hc
          rcases List.mem_cons.1 hc with rfl | hc
          · exact hc1
          · exact hcs c (List.mem_cons_of_mem _ hc)
        | none =>
          cases hrec : updateGsimList ctx r trunc il gs cs with
          | mk cs1 oe2 =>
            intro c hc
            simp only [hrec] at hc
            rcases List.mem_cons.1 hc with rfl | hc
            · exact hc1
            · have := ih cs (fun c2 hc2 => hcs c2 (List.mem_cons_of_mem _ hc2))
              rw [hrec] at this
              exact this c hc

theorem ruptureStream_ruptures {rf : RuptureFilter} {ss : SubSites}
    {rups : List (Except PyErr Rupture)}
    {x : Except PyErr (Rupture × SubSites)} (hx : x ∈ ruptureStream rf ss rups) :
    ∀ r rs, x = .ok (r, rs) → Except.ok r ∈ rups := by
  intro r rs hxr
  subst hxr
  rw [ruptureStream] at hx
  obtain ⟨a, ha, hfa⟩ := List.mem_filterMap.1 hx
  cases a with
  | error e => simp at hfa
  | ok r0 =>
    dsimp only at hfa
    cases hap : rf.apply r0 ss with
    | none => rw [hap] at hfa; cases hfa
    | some rs0 =>
      rw [hap] at hfa
      obtain ⟨rfl, rfl⟩ : r0 = r ∧ rs0 = rs := by simpa [Prod.ext_iff] using hfa
      exact ha

theorem processRupture_in01 (env : TrtEnv) (r : Rupture) (rs : SubSites)
    (st : PerTrtState) (hr : RuptureIn01 r)
    (hst : ∀ c ∈ st.curves, curveIn01 c) :
    ∀ c ∈ (processRupture env r rs st).1.curves, curveIn01 c := by
  rw [processRupture]
  cases hmk : env.cmaker.make_contexts rs r with
  | far => exact hst
  | err e => exact hst
  | ok ctx =>
    dsimp only
    cases hgl : updateGsimList ctx r env.truncation_level env.imtls
        env.gsims st.curves with
    | mk cs oe =>
      simp only [hgl]
      intro c hc
      have := updateGsimList_in01 ctx r env.truncation_level env.imtls hr
        env.gsims st.curves hst
      rw [hgl] at this
      exact this c hc

theorem processRuptures_in01 (env : TrtEnv) :
    ∀ (elems : List (Except PyErr (Rupture × SubSites))) (st : PerTrtState),
      (∀ x ∈ elems, ∀ r rs, x = .ok (r, rs) → RuptureIn01 r) →
      (∀ c ∈ st.curves, curveIn01 c) →
      ∀ c ∈ (processRuptures env elems st).1.curves, curveIn01 c := by
  intro elems
  induction elems with
  | nil => intro st _ hst; exact hst
  | cons x rest ih =>
    intro st helems hst
    cases x with
    | error e => exact hst
    | ok p =>
      obtain ⟨r, rs⟩ := p
      rw [processRuptures]
      cases hpr : processRupture env r rs st with
      | mk st1 oe =>
        have hst1 : ∀ c ∈ st1.curves, curveIn01 c := by
          have := processRupture_in01 env r rs st
            (helems _ (List.mem_cons_self _ _) r rs rfl) hst
          rw [hpr] at this
          exact this
        cases oe with
        | some e => exact hst1
        | none =>
          exact ih st1 (fun y hy => helems y (List.mem_cons_of_mem _ hy)) hst1

theorem processSources_in01 (env : TrtEnv) :
    ∀ (srcs : List Source) (st : PerTrtState),
      (∀ src ∈ srcs, SourceIn01 src) →
      (∀ c ∈ st.curves, curveIn01 c) →
      ∀ c ∈ (processSources env srcs st).1.curves, curveIn01 c := by
  intro srcs
  induction srcs with
  | nil => intro st _ hst; exact hst
  | cons src rest ih =>
    intro st hsrcs hst
    cases hsf : env.source_site_filter.apply src env.sites with
    | none =>
      intro c hc
      rw [processSources] at hc
      simp only [hsf] at hc
      exact ih st (fun s hs => hsrcs s (List.mem_cons_of_mem _ hs)) hst c hc
    | some s_sites =>
      cases hpr : processRuptures env
          (ruptureStream env.rupture_site_filter s_sites src.iter_ruptures) st with
      | mk stm oe =>
        have hstm : ∀ c ∈ stm.curves, curveIn01 c := by
          have := processRuptures_in01 env
            (ruptureStream env.rupture_site_filter s_sites src.iter_ruptures) st
            (fun x hx r rs hxr =>
              hsrcs src (List.mem_cons_self _ _) _
                (ruptureStream_ruptures hx r rs hxr) r rfl)
            hst
          rw [hpr] at this
          exact this
        intro c hc
        rw [processSources] at hc
        simp only [hsf, hpr] at hc
        cases oe with
        | some e => exact hstm c hc
        | none =>
          exact ih ⟨stm.curves, stm.eff_ruptures, stm.calc_times ++ [(src.id, 0)]⟩
            (fun s hs => hsrcs s (List.mem_cons_of_mem _ hs)) hstm c hc

/-! ### C3 -/

/-- **C3**: when the ground-motion evaluator only produces exceedance
probabilities in `[0,1]` and ruptures only produce no-exceedance
probabilities in `[0,1]`, every curve value held in the per-TRT accumulator
at any stage of the source loop, every curve value returned by
`hazard_curves_per_trt`, and every curve value returned by
`calc_hazard_curves` lies in `[0,1]`. -/
theorem curve_values_in_unit_interval :
    (∀ (env : TrtEnv) (srcs : List Source) (st : PerTrtState),
      (∀ src ∈ srcs, SourceIn01 src) → (∀ c ∈ st.curves, curveIn01 c) →
      ∀ c ∈ (processSources env srcs st).1.curves, curveIn01 c) ∧
    (∀ (cmakerOf : List Gsim → Option Prob → ContextMaker) (sources : List Source)
      (sites : SubSites) (imtls : List (String × List Prob)) (gsims : List Gsim)
      (truncation_level : Option Prob) (srcF : SourceFilter)
      (rupF : RuptureFilter) (md : Option Prob) (monitor : Monitor)
      (m : Monitor) (cs : List CurveAcc),
      (∀ g ∈ gsims, GsimIn01 g) → (∀ src ∈ sources, SourceIn01 src) →
      hazard_curves_per_trt cmakerOf sources sites imtls gsims truncation_level
        srcF rupF md monitor = (m, .ok cs) →
      ∀ c ∈ cs, curveIn01 c) ∧
    (∀ (cmakerOf : List Gsim → Option Prob → ContextMaker) (sources : List Source)
      (sites : SubSites) (imtls : List (String × List Prob))
      (gsim_by_trt : List (String × Gsim)) (truncation_level : Option Prob)
      (srcF : SourceFilter) (rupF : RuptureFilter) (md : Option Prob)
      (res : CurveAcc),
      (∀ p ∈ gsim_by_trt, GsimIn01 p.2) → (∀ src ∈ sources, SourceIn01 src) →
      calc_hazard_curves cmakerOf sources sites imtls gsim_by_trt
        truncation_level srcF rupF md = .ok res →
      curveIn01 res) := by
  have perTrt : ∀ (cmakerOf : List Gsim → Option Prob → ContextMaker)
      (sources : List Source) (sites : SubSites)
      (imtls : List (String × List Prob)) (gsims : List Gsim)
      (truncation_level : Option Prob) (srcF : SourceFilter)
      (rupF : RuptureFilter) (md : Option Prob) (monitor : Monitor)
      (m : Monitor) (cs : List CurveAcc),
      (∀ src ∈ sources, SourceIn01 src) →
      hazard_curves_per_trt cmakerOf sources sites imtls gsims truncation_level
        srcF rupF md monitor = (m, .ok cs) →
      ∀ c ∈ cs, curveIn01 c := by
    intro cmakerOf sources sites imtls gsims truncation_level srcF rupF md
      monitor m cs hsrc h
    rw [hazard_curves_per_trt] at h
    cases hps : processSources
        (trtEnv cmakerOf sites imtls gsims truncation_level srcF rupF md)
        sources
        ⟨gsims.map (fun _ => onesCurves sites.sids.length imtls), 0, []⟩ with
    | mk st oe =>
      rw [hps] at h
      cases oe with
      | some e => simp [Prod.ext_iff] at h
      | none =>
        obtain ⟨_, hcs⟩ : (⟨st.calc_times, st.eff_ruptures⟩ : Monitor) = m
            ∧ (Except.ok (st.curves.map (invertCurve imtls))
                : Except PyErr (List CurveAcc)) = Except.ok cs := by
          simpa [Prod.ext_iff] using h
        obtain rfl : st.curves.map (invertCurve imtls) = cs := by
          simpa using hcs
        intro c hc
        obtain ⟨c0, hc0, rfl⟩ := List.mem_map.1 hc
        refine curveIn01_invertCurve ?_
        have := processSources_in01
          (trtEnv cmakerOf sites imtls gsims truncation_level srcF rupF md)
          sources
          ⟨gsims.map (fun _ => onesCurves sites.sids.length imtls), 0, []⟩
          hsrc
          (by
            intro c1 hc1
            obtain ⟨g1, _, rfl⟩ := List.mem_map.1 hc1
            exact curveIn01_onesCurves _ _)
        rw [hps] at this
        exact this c0 hc0
  refine ⟨?_, ?_, ?_⟩
  · intro env srcs st hsrc hst
    exact processSources_in01 env srcs st hsrc hst
  · intro cmakerOf sources sites imtls gsims truncation_level srcF rupF md
      monitor m cs _ hsrc h
    exact perTrt cmakerOf sources sites imtls gsims truncation_level srcF rupF
      md monitor m cs hsrc h
  · intro cmakerOf sources sites imtls gsim_by_trt truncation_level srcF rupF
      md res _ hsrc h
    rw [calc_hazard_curves] at h
    have aux : ∀ (trts : List String) (curves : CurveAcc), curveIn01 curves →
        calcGroups cmakerOf sources sites imtls gsim_by_trt truncation_level
          srcF rupF trts curves = .ok res → curveIn01 res := by
      intro trts
      induction trts with
      | nil =>
        intro curves hcur hg
        rw [calcGroups] at hg
        obtain rfl : curves = res := by simpa using hg
        exact hcur
      | cons trt rest ih =>
        intro curves hcur hg
        cases hlk : List.lookup trt gsim_by_trt with
        | none => rw [calcGroups, hlk] at hg; cases hg
        | some gsim =>
          cases hper : hazard_curves_per_trt cmakerOf (sourcesOfTrt sources trt)
              sites imtls [gsim] truncation_level srcF rupF none DummyMonitor with
          | mk m2 r2 =>
            cases r2 with
            | error e =>
              rw [calcGroups, hlk] at hg
              simp only [hper] at hg
              cases hg
            | ok cs2 =>
              cases cs2 with
              | nil =>
                rw [calcGroups, hlk] at hg
                simp only [hper] at hg
                cases hg
              | cons c2 cs3 =>
                rw [calcGroups, hlk] at hg
                simp only [hper] at hg
                refine ih (agg_curves curves c2) ?_ hg
                refine curveIn01_agg_curves hcur ?_
                have hc2 := perTrt cmakerOf (sourcesOfTrt sources trt) sites
                  imtls [gsim] truncation_level srcF rupF none DummyMonitor
                  m2 (c2 :: cs3)
                  (fun s hs => hsrc s (List.mem_of_mem_filter hs)) hper
                exact hc2 c2 (List.mem_cons_self _ _)
    exact aux (trtOrder sources) _ (curveIn01_zero_curves _ _) h

/-- **C3**, witness: the concrete scenario's returned curve value 0.28 lies
in `[0,1]`. -/
theorem curve_values_in_unit_interval_witness :
    ∀ c ∈ ([[("PGA", [[(7 : Prob)/25]])]] : List CurveAcc), curveIn01 c := by
  refine curve_values_in_unit_interval.2.1 okCmakerOf [srcA] oneSite
    [("PGA", [1/2])] [stubGsim] none source_site_noop_filter
    rupture_site_noop_filter none DummyMonitor ⟨[(1, 0)], 2⟩
    [[("PGA", [[(7 : Prob)/25]])]] ?_ ?_ (by with_unfolding_all rfl)
  · intro g hg
    obtain rfl : g = stubGsim := by simpa using hg
    intro ctx imt imls t poes h
    obtain rfl : [[(1 : Prob)/10]] = poes := by simpa [stubGsim] using h
    with_unfolding_all decide
  · intro src hsrc
    obtain rfl : src = srcA := by simpa using hsrc
    intro x hx r hxr
    have hx2 : x = Except.ok (constRupture (9/10))
        ∨ x = Except.ok (constRupture (8/10)) := by
      simpa [srcA] using hx
    rcases hx2 with rfl | rfl
    · obtain rfl : constRupture (9/10) = r := by simpa using hxr
      intro poes pno h
      obtain rfl : [[(9 : Prob)/10]] = pno := by simpa [constRupture] using h
      with_unfolding_all decide
    · obtain rfl : constRupture (8/10) = r := by simpa using hxr
      intro poes pno h
      obtain rfl : [[(8 : Prob)/10]] = pno := by simpa [constRupture] using h
      with_unfolding_all decide

end OQ
